import Mathlib

/-!
A verification development for the coverage data engine of coveragepy
(`coverage/sqldata.py` and `coverage/results.py`).

The SQLite store of `sqldata.py` is embedded shallowly as a `DataState`
record holding the contents of the relational tables.  Both the `file`
and `context` tables carry a `unique` constraint on their text column and
every other table references them through their integer ids, so the
embedding keys every row directly by the file path and context name text
(the id indirection is a bijection and is never observable through the
API).  Python dictionaries are embedded as association lists where a later
insert overwrites the binding in place (`dinsert`), the semantics of
`dict.__setitem__`.  Exceptions (`CoverageException`, which plays the role
the specification calls `DataError`) are embedded as `Except String`,
carrying the message.

`coverage/numbits.py` is not among the source files, so the numbits codec
is modelled from the specification (section 4.1): a numbits value is a
byte string where bit `i` of byte `k` is set iff `8*k + i` belongs to the
encoded set.

Python floats in `results.py` are IEEE-754 doubles, i.e. exact (dyadic)
rational numbers; they are embedded as `ℚ`.  A Python float literal
denotes the double nearest to it: in particular the literal `50.555`
denotes 7114983723803607 / 2^47 = 50.55499999999999971578…, and `89.9`
denotes 3163075050785997 / 2^45.  Python's `round(x, n)` rounds the exact
value of the double `x` to the nearest multiple of `10^-n`, ties to even
(`rhe` below); `"%.*f"` formatting does the same rounding before printing.
-/

/-! ## Association lists as Python dictionaries -/

/-- `d[k]` for a dict embedded as an association list (first match wins;
`dinsert` keeps keys unique, mirroring a Python dict). -/
def dget {α β : Type} [DecidableEq α] : List (α × β) → α → Option β
  | [], _ => none
  | (k0, v0) :: rest, k => if k0 = k then some v0 else dget rest k

/-- `d[k] = v` for a dict embedded as an association list: overwrite the
binding in place if the key is present, else append it. -/
def dinsert {α β : Type} [DecidableEq α] : List (α × β) → α → β → List (α × β)
  | [], k, v => [(k, v)]
  | (k0, v0) :: rest, k, v =>
    if k0 = k then (k, v) :: rest else (k0, v0) :: dinsert rest k v

/-- `insert or ignore` of a single value into a `unique` text column. -/
def insertNew {α : Type} [DecidableEq α] (l : List α) (x : α) : List α :=
  if x ∈ l then l else l ++ [x]

/-! ## The numbits codec (modelled from the spec)

`coverage/numbits.py` is not in the sources; modelled from the spec,
section 4.1: bit `i` of byte `k` is set iff `8*k + i` is in the set; the
canonical form has no trailing zero bytes; union is bytewise OR. -/

/-- A numbits blob: the list of its bytes. -/
abbrev Numbits := List Nat

/-- Membership of `n` in the set a numbits blob encodes: bit `n % 8` of
byte `n / 8`.  Absent bytes read as zero, so non-canonical trailing zero
bytes do not change membership. -/
def numbitsHas (nb : Numbits) (n : Nat) : Bool :=
  (nb.getD (n / 8) 0).testBit (n % 8)

/-- Modelled from the spec: `nums_to_numbits`, encoding a set of
non-negative integers as `max/8 + 1` bytes (canonical: for a non-empty
set the last byte holds the maximum, hence is non-zero; the empty set
encodes as the empty byte string). -/
def nums_to_numbits (nums : List Nat) : Numbits :=
  if nums.isEmpty then []
  else (List.range (nums.foldl max 0 / 8 + 1)).map
    (fun k => nums.foldl (fun acc n => if n / 8 = k then acc ||| 2 ^ (n % 8) else acc) 0)

/-- Modelled from the spec: `numbits_to_nums`, the decoder.  Every member
is below `8 * length`, so the range scan is exhaustive. -/
def numbits_to_nums (nb : Numbits) : List Nat :=
  (List.range (8 * nb.length)).filter (fun n => numbitsHas nb n)

/-- Modelled from the spec: `numbits_union`, bytewise OR aligned to byte
0, with the shorter operand padded by zero bytes. -/
def numbits_union : Numbits → Numbits → Numbits
  | [], ys => ys
  | x :: xs, [] => x :: xs
  | x :: xs, y :: ys => (x ||| y) :: numbits_union xs ys

/-! ## The store: `CoverageData` of `coverage/sqldata.py`

`DataState` holds the tables of the schema (keyed by path / context text,
see the header comment) together with the in-memory attributes of
`CoverageData` that the embedded operations read: the `_has_lines` /
`_has_arcs` mode flags, `_current_context`, and `_query_context_ids`
(kept as the list of context names the ids denote). -/

structure DataState where
  has_lines : Bool
  has_arcs : Bool
  /-- the `file` table: measured paths (`unique (path)`). -/
  file : List String
  /-- the `context` table: context names (`unique (context)`). -/
  context : List String
  /-- the `line_bits` table: `(file, context, numbits)` rows,
  `unique (file_id, context_id)`. -/
  line_bits : List (String × String × Numbits)
  /-- the `arc` table: `(file, context, fromno, tono)` rows, unique. -/
  arc : List (String × String × Int × Int)
  /-- the `tracer` table: `(file, tracer)` rows, `file_id` primary key. -/
  tracer : List (String × String)
  /-- `_current_context` (`None` until `set_context`). -/
  current_context : Option String
  /-- `_query_context_ids`: `none` = no filter, else the names whose ids
  were collected by `set_query_context(s)`. -/
  query_context_ids : Option (List String)
deriving DecidableEq, Repr

/-- A freshly created store (`_create_db`): empty tables, no mode chosen. -/
def initState : DataState :=
  ⟨false, false, [], [], [], [], [], none, none⟩

/-- `CoverageData._choose_lines_or_arcs`: the mode gate.  Writing the
`meta['has_arcs']` row is absorbed into the two mode flags, which
`_read_db` reconstructs from that row. -/
def DataState.choose_lines_or_arcs (s : DataState) (lines arcs : Bool) :
    Except String DataState :=
  if lines && s.has_arcs then .error "Can't add lines to existing arc data"
  else if arcs && s.has_lines then .error "Can't add arcs to existing line data"
  else if !s.has_arcs && !s.has_lines then
    .ok { s with has_lines := lines, has_arcs := arcs }
  else .ok s

/-- `CoverageData.set_context`. -/
def DataState.set_context (s : DataState) (context : String) : DataState :=
  { s with current_context := some context }

/-- `CoverageData._set_context_id`: ensure a `context` row exists for
`_current_context or ""`. -/
def DataState.set_context_id (s : DataState) : DataState :=
  { s with context := insertNew s.context (s.current_context.getD "") }

/-- The body of `add_lines` for one `(filename, linenos)` item: create the
file row, union the incoming numbits with the existing `line_bits` row for
`(file, current context)`, and `insert or replace` the row. -/
def addLinesOne (ctx : String) (s : DataState) (fl : String × List Nat) : DataState :=
  let linemap := nums_to_numbits fl.2
  let s1 := { s with file := insertNew s.file fl.1 }
  let linemap2 := match dget (s1.line_bits.map (fun r => ((r.1, r.2.1), r.2.2))) (fl.1, ctx) with
    | some existing => numbits_union linemap existing
    | none => linemap
  { s1 with line_bits := (dinsert (s1.line_bits.map (fun r => ((r.1, r.2.1), r.2.2)))
      (fl.1, ctx) linemap2).map (fun kv => (kv.1.1, kv.1.2, kv.2)) }

/-- `CoverageData.add_lines`.  The mode gate runs before the emptiness
check, exactly as in the source. -/
def DataState.add_lines (s : DataState) (line_data : List (String × List Nat)) :
    Except String DataState := do
  let s1 ← s.choose_lines_or_arcs true false
  if line_data.isEmpty then return s1 else
  let s2 := s1.set_context_id
  let ctx := s2.current_context.getD ""
  return line_data.foldl (addLinesOne ctx) s2

/-- The body of `add_arcs` for one `(filename, arcs)` item: create the
file row and `insert or ignore` the arc rows. -/
def addArcsOne (ctx : String) (s : DataState) (fa : String × List (Int × Int)) : DataState :=
  let s1 := { s with file := insertNew s.file fa.1 }
  { s1 with arc := fa.2.foldl (fun rows a => insertNew rows (fa.1, ctx, a.1, a.2)) s1.arc }

/-- `CoverageData.add_arcs`.  As in the source, the mode gate runs before
the emptiness check. -/
def DataState.add_arcs (s : DataState) (arc_data : List (String × List (Int × Int))) :
    Except String DataState := do
  let s1 ← s.choose_lines_or_arcs false true
  if arc_data.isEmpty then return s1 else
  let s2 := s1.set_context_id
  let ctx := s2.current_context.getD ""
  return arc_data.foldl (addArcsOne ctx) s2

/-- `CoverageData.file_tracer`: `None` for an unmeasured file, `""` for a
measured file with no (or an empty) tracer row, else the tracer name
(`row[0] or ""`). -/
def DataState.file_tracer (s : DataState) (filename : String) : Option String :=
  if filename ∈ s.file then
    match dget s.tracer filename with
    | some t => some (if t = "" then "" else t)
    | none => some ""
  else none

/-- The `"Conflicting file tracer name for '%s': %r vs %r"` message. -/
def conflictMsg (path this_t other_t : String) : String :=
  "Conflicting file tracer name for '" ++ path ++ "': '" ++ this_t ++ "' vs '" ++ other_t ++ "'"

/-- `CoverageData.add_file_tracers`: each file must already be measured;
a truthy existing tracer that differs from the incoming name is a
conflict; otherwise a truthy incoming name is inserted. -/
def DataState.add_file_tracers (s : DataState) (file_tracers : List (String × String)) :
    Except String DataState :=
  if file_tracers.isEmpty then .ok s else
  file_tracers.foldlM (fun t fp =>
    if fp.1 ∉ t.file then
      .error ("Can't add file tracer data for unmeasured file '" ++ fp.1 ++ "'")
    else
      let existing_plugin := (t.file_tracer fp.1).getD ""
      if existing_plugin ≠ "" then
        if existing_plugin ≠ fp.2 then .error (conflictMsg fp.1 existing_plugin fp.2)
        else .ok t
      else if fp.2 ≠ "" then .ok { t with tracer := t.tracer ++ [(fp.1, fp.2)] }
      else .ok t) s

/-! ## Queries -/

/-- Does a row's context pass `_query_context_ids`?  (`context_id in
(...)` when a filter is set, no constraint otherwise.) -/
def ctxOk (s : DataState) (c : String) : Bool :=
  match s.query_context_ids with
  | none => true
  | some qs => c ∈ qs

/-- `CoverageData.set_query_context`: collect the ids of the contexts
whose name equals `context` (zero or one row, by uniqueness). -/
def DataState.set_query_context (s : DataState) (context : String) : DataState :=
  { s with query_context_ids := some (s.context.filter (fun c => c = context)) }

/-- `CoverageData.arcs`: `None` for an unmeasured file, else the distinct
`(fromno, tono)` pairs of the file's arc rows passing the context
filter. -/
def DataState.arcs (s : DataState) (filename : String) : Option (List (Int × Int)) :=
  if filename ∈ s.file then
    some (((s.arc.filter (fun r => r.1 = filename ∧ ctxOk s r.2.1)).map
      (fun r => (r.2.2.1, r.2.2.2))).dedup)
  else none

/-- The `line_bits` branch of `CoverageData.lines` (no join with the
context table: `select numbits from line_bits where file_id = ?` plus the
optional context filter); the result is a set, embedded as a
duplicate-free list. -/
def DataState.linesFromBits (s : DataState) (filename : String) : Option (List Nat) :=
  if filename ∈ s.file then
    some (((s.line_bits.filter (fun r => r.1 = filename ∧ ctxOk s r.2.1)).foldl
      (fun acc r => acc ++ numbits_to_nums r.2.2) []).dedup)
  else none

/-- `CoverageData.lines`: in arcs mode, the positive endpoints of
`arcs(filename)`; the `line_bits` query answers otherwise (also reached
when `arcs(filename)` is `None`, i.e. the file is unknown — both branches
return `None` then, as in the source's fall-through). -/
def DataState.lines (s : DataState) (filename : String) : Option (List Nat) :=
  if s.has_arcs then
    match s.arcs filename with
    | some pairs =>
      some ((((pairs.map Prod.fst ++ pairs.map Prod.snd).filter (fun l => 0 < l)).map
        Int.toNat).dedup)
    | none => s.linesFromBits filename
  else s.linesFromBits filename

/-- One `lineno_contexts_map[k]`-guarded append of the arcs branch of
`contexts_by_lineno`: the defaultdict access creates the key, and the
context is appended when not already present. -/
def addCtxGuard (m : List (Int × List String)) (k : Int) (c : String) :
    List (Int × List String) :=
  match dget m k with
  | some l => if c ∈ l then m else dinsert m k (l ++ [c])
  | none => dinsert m k [c]

/-- The unguarded append of the lines branch of `contexts_by_lineno`. -/
def addCtxAlways (m : List (Int × List String)) (k : Int) (c : String) :
    List (Int × List String) :=
  match dget m k with
  | some l => dinsert m k (l ++ [c])
  | none => dinsert m k [c]

/-- `CoverageData.contexts_by_lineno`: an unmeasured file yields the empty
mapping; in arcs mode both endpoints of each arc row (joined with its
context row) receive the context; in lines mode every decoded line of
each `line_bits` row receives the context. -/
def DataState.contexts_by_lineno (s : DataState) (filename : String) :
    List (Int × List String) :=
  if filename ∉ s.file then []
  else if s.has_arcs then
    (s.arc.filter (fun r => r.1 = filename ∧ r.2.1 ∈ s.context ∧ ctxOk s r.2.1)).foldl
      (fun m r => addCtxGuard (addCtxGuard m r.2.2.1 r.2.1) r.2.2.2 r.2.1) []
  else
    (s.line_bits.filter (fun r => r.1 = filename ∧ r.2.1 ∈ s.context ∧ ctxOk s r.2.1)).foldl
      (fun m r => (numbits_to_nums r.2.2).foldl
        (fun m2 l => addCtxAlways m2 (Int.ofNat l) r.2.1) m) []

/-! ## `CoverageData.update` -/

/-- The default `PathAliases` of a merge: modelled from the spec, section
4.4 — with no (pattern → replacement) pairs configured, `map` returns the
input unchanged. -/
def aliasId : String → String := fun p => p

/-- A Python dict comprehension: fold the rows into a dict, keying row
`r` by `f r` with value `g r` (later rows overwrite earlier ones). -/
def dictOf {α κ β : Type} [DecidableEq κ] (f : α → κ) (g : α → β) (d : List (κ × β))
    (rows : List α) : List (κ × β) :=
  rows.foldl (fun acc r => dinsert acc (f r) (g r)) d

/-- The `Get line data` re-read of `update`: merge this store's own
`line_bits` rows into the collected dict, unioning with the collected
numbits when the `(aliased path, context)` key is already present. -/
def mergeLinesDict (aliases : String → String) (rows : List (String × String × Numbits))
    (d : List ((String × String) × Numbits)) : List ((String × String) × Numbits) :=
  rows.foldl (fun acc r =>
    match dget acc (aliases r.1, r.2.1) with
    | some nb => dinsert acc (aliases r.1, r.2.1) (numbits_union nb r.2.2)
    | none => dinsert acc (aliases r.1, r.2.1) r.2.2) d

/-- The `Prepare tracers and fail, if a conflict is found` loop of
`CoverageData.update`, over `files.values()`: a merged path whose local
tracer entry exists (`is not None`) and differs from the other store's
tracer (`''` when absent) is a conflict; otherwise the other store's
tracer is recorded in `tracer_map`. -/
def tracerMapLoop (this_tracers tracers : List (String × String)) :
    List String → List (String × String) → Except String (List (String × String))
  | [], tm => .ok tm
  | path :: rest, tm =>
    let this_tracer := dget this_tracers path
    let other_tracer := (dget tracers path).getD ""
    if this_tracer ≠ none ∧ this_tracer ≠ some other_tracer then
      .error (conflictMsg path (this_tracer.getD "") other_tracer)
    else tracerMapLoop this_tracers tracers rest (dinsert tm path other_tracer)

/-- `CoverageData.update`.  The reads from `other` come first; the writes
to `self` happen inside one transaction, so an error raised by the tracer
conflict loop rolls everything back — which the `Except` propagation
models by discarding the partially built state. -/
def DataState.update (s other : DataState) (aliases : String → String) :
    Except String DataState := do
  if s.has_lines && other.has_arcs then throw "Can't combine arc data with line data"
  if s.has_arcs && other.has_lines then throw "Can't combine line data with arc data"
  -- Get files data: {path: aliases.map(path)}.
  let files : List (String × String) := dictOf (fun p => p) aliases [] other.file
  -- Get contexts data.
  let contexts := other.context
  -- Get arc data, joined to paths and contexts.
  let arcs : List (String × String × Int × Int) := other.arc.map (fun r => ((dget files r.1).getD "", r.2.1, r.2.2.1, r.2.2.2))
  -- Get line data: {(files[path], context): numbits}.
  let lines0 : List ((String × String) × Numbits) :=
    dictOf (fun r => ((dget files r.1).getD "", r.2.1)) (fun r => r.2.2) [] other.line_bits
  -- Get tracer data: {files[path]: tracer}.
  let tracers : List (String × String) :=
    dictOf (fun r => (dget files r.1).getD "") (fun r => r.2) [] other.tracer
  -- All tracers of this store: '' for every measured file, overwritten by
  -- the tracer rows (paths passed through the aliases, as in the source).
  let this_tracers : List (String × String) :=
    dictOf (fun r => aliases r.1) (fun r => r.2) (dictOf (fun p => p) (fun _ => "") [] s.file)
      s.tracer
  -- Create all file and context rows.
  let s1 := { s with
    file := (files.map Prod.snd).foldl insertNew s.file,
    context := contexts.foldl insertNew s.context }
  -- Prepare tracers and fail if a conflict is found.
  let tracer_map ← tracerMapLoop this_tracers tracers (files.map Prod.snd) []
  -- Merge this store's line_bits rows into the collected dict by union.
  let lines : List ((String × String) × Numbits) := mergeLinesDict aliases s.line_bits lines0
  let s2 ← if arcs ≠ [] then do
      let t ← s1.choose_lines_or_arcs false true
      pure { t with arc := arcs.foldl insertNew t.arc }
    else pure s1
  let s3 ← if lines ≠ [] then do
      let t ← s2.choose_lines_or_arcs true false
      -- delete from line_bits, then insert the merged dict.
      pure { t with line_bits := lines.map (fun kv : (String × String) × Numbits => (kv.1.1, kv.1.2, kv.2)) }
    else pure s2
  -- insert or ignore the tracer rows (file_id is the primary key).
  return { s3 with tracer := (tracer_map.foldl
    (fun rows (kv : String × String) => if (dget rows kv.1).isSome then rows else rows ++ [kv]) s3.tracer) }

/-! ## `coverage/results.py`: numbers and formatting

Floats are embedded as exact rationals (see the header comment). -/

/-- Round half to even, the rounding of Python `round` and of `printf`
`%f` applied to the exact value of a double. -/
def rhe (x : ℚ) : ℤ :=
  let f := x.floor
  let r := x - (f : ℚ)
  if r < 1/2 then f else if 1/2 < r then f + 1 else if f % 2 = 0 then f else f + 1

/-- Python `round(x, ndigits)` for `ndigits ≥ 0`, on the exact value of
the double `x`. -/
def pyRound (x : ℚ) (ndigits : Nat) : ℚ :=
  (rhe (x * 10 ^ ndigits) : ℚ) / 10 ^ ndigits

/-- The string `"%.*f" % (p, x)` builds from the scaled rounded integer
`n = rhe (x * 10^p)`: optional sign, whole part, and (when `p > 0`) a
point followed by `p` zero-padded fraction digits.  (For `-1/2 < x < 0`
Python would print a negative zero, `"-0.00"`; the claims only concern
non-negative percentages, where the two agree.) -/
def fixedFormatInt (p : Nat) (n : ℤ) : String :=
  let sign := if n < 0 then "-" else ""
  let m := n.natAbs
  let whole := m / 10 ^ p
  let frac := m % 10 ^ p
  if p = 0 then sign ++ toString whole
  else
    let fs := toString frac
    sign ++ toString whole ++ "." ++ String.mk (List.replicate (p - fs.length) '0') ++ fs

/-- `"%.*f" % (p, x)`. -/
def fixedFormat (p : Nat) (x : ℚ) : String :=
  fixedFormatInt p (rhe (x * 10 ^ p))

/-- The value `Numbers.display_covered` formats: the boundary-preserving
substitution of `pc` (`_near0 = 1.0 / 10**precision`,
`_near100 = 100.0 - _near0`), else `round(pc, precision)`. -/
def displayValue (precision : Nat) (pc : ℚ) : ℚ :=
  if 0 < pc ∧ pc < 1 / 10 ^ precision then 1 / 10 ^ precision
  else if 100 - 1 / 10 ^ precision < pc ∧ pc < 100 then 100 - 1 / 10 ^ precision
  else pyRound pc precision

/-- `Numbers.display_covered`. -/
def display_covered (precision : Nat) (pc : ℚ) : String :=
  fixedFormat precision (displayValue precision pc)

/-- `should_fail_under` of `coverage/results.py`.  `ConfigError` is the
`.error` case. -/
def should_fail_under (total fail_under : ℚ) (precision : Nat) : Except String Bool :=
  if ¬(0 ≤ fail_under ∧ fail_under ≤ 100) then
    .error "fail_under is invalid. Must be between 0 and 100."
  else if fail_under = 100 ∧ total ≠ 100 then .ok true
  else .ok (decide (pyRound total precision < fail_under))

/-! ## `format_lines` and its helpers -/

/-- Modelled from the spec: `nice_pair` of `coverage/misc.py` (not among
the source files) renders a singleton run as `"a"` and a longer run as
`"a-b"`. -/
def nice_pair (p : Nat × Nat) : String :=
  if p.1 = p.2 then toString p.1 else toString p.1 ++ "-" ++ toString p.2

/-- Insert into a sorted list, before the first element `y` with
`le x y` (so sorting with it is stable, like Python `sorted`). -/
def insSorted {α : Type} (le : α → α → Bool) (x : α) : List α → List α
  | [] => [x]
  | y :: ys => if le x y then x :: y :: ys else y :: insSorted le x ys

/-- Python `sorted`: a stable ascending sort. -/
def pySorted {α : Type} (le : α → α → Bool) : List α → List α
  | [] => []
  | x :: xs => insSorted le x (pySorted le xs)

/-- Python truthiness of the `Optional[TLineNo]` variable `start` of
`_line_ranges`: `None` and `0` are falsy. -/
def truthyOpt : Option Nat → Bool
  | none => false
  | some v => v != 0

/-- The statement loop of `_line_ranges`: state is `(pairs, start, end)`
plus the cursor `lidx` into `lines`; the loop breaks when `lidx` runs off
`lines`. -/
def lineRangesLoop (lines : List Nat) :
    List Nat → List (Nat × Nat) → Option Nat → Nat → Nat →
    List (Nat × Nat) × Option Nat × Nat
  | [], pairs, start, e, _ => (pairs, start, e)
  | stmt :: rest, pairs, start, e, lidx =>
    if lines.length ≤ lidx then (pairs, start, e)
    else if stmt = lines.getD lidx 0 then
      lineRangesLoop lines rest pairs (if truthyOpt start then start else some stmt) stmt
        (lidx + 1)
    else if truthyOpt start then
      lineRangesLoop lines rest (pairs ++ [(start.getD 0, e)]) none e lidx
    else lineRangesLoop lines rest pairs start e lidx

/-- `_line_ranges` of `coverage/results.py`. -/
def line_ranges (statements lines : List Nat) : List (Nat × Nat) :=
  let res := lineRangesLoop (pySorted Nat.ble lines) (pySorted Nat.ble statements) [] none 0 0
  if truthyOpt res.2.1 then res.1 ++ [(res.2.1.getD 0, res.2.2)] else res.1

/-- Python `str` comparison, by code points. -/
def charListLt : List Char → List Char → Bool
  | [], [] => false
  | [], _ :: _ => true
  | _ :: _, [] => false
  | a :: moreA, b :: moreB =>
    if a.toNat < b.toNat then true
    else if b.toNat < a.toNat then false
    else charListLt moreA moreB

/-- The comparison `sorted` uses on the `(line, text)` pairs of
`format_lines` (Python tuple order: by the int, ties by the string). -/
def itemLe (a b : Nat × String) : Bool :=
  if a.1 < b.1 then true
  else if b.1 < a.1 then false
  else !(charListLt b.2.data a.2.data)

/-- `format_lines` of `coverage/results.py`.  `arcs`, when given, is the
`(start, [end, …])` list of `missing_branch_arcs().items()`; an `ex > 0`
destination prints as itself, otherwise as `"exit"`. -/
def format_lines (statements linesL : List Nat)
    (arcs : Option (List (Nat × List Int))) : String :=
  let line_items := (line_ranges statements linesL).map (fun pair => (pair.1, nice_pair pair))
  let line_items2 := match arcs with
    | none => line_items
    | some arcsL =>
      (pySorted (fun a b => Nat.ble a.1 b.1) arcsL).foldl (fun items lineExits =>
        (pySorted (fun x y => decide (x ≤ y)) lineExits.2).foldl (fun items2 ex =>
          if lineExits.1 ∉ linesL ∧ ex ∉ linesL.map (fun n => (n : Int)) then
            items2 ++ [(lineExits.1,
              toString lineExits.1 ++ "->" ++ (if 0 < ex then toString ex else "exit"))]
          else items2) items) line_items
  ", ".intercalate ((pySorted itemLe line_items2).map (fun t => t.2))

/-! ## The `REGEXP` hook of `coverage/sqldata.py` -/

/-- Is `pat` an initial segment of `text`? -/
def listStartsAt : List Char → List Char → Bool
  | [], _ => true
  | _ :: _, [] => false
  | a :: ps, b :: ts => a = b && listStartsAt ps ts

/-- Does `pat` occur contiguously anywhere in the second list? -/
def listOccurs (pat : List Char) : List Char → Bool
  | [] => listStartsAt pat []
  | c :: ts => listStartsAt pat (c :: ts) || listOccurs pat ts

/-- Python `re.search(pat, s) is not None`, restricted to literal
(metacharacter-free) patterns, where it is exactly unanchored substring
search.  (`re` is the Python standard library, so only the fragment the
claim needs is modelled.) -/
def re_search (pat s : String) : Bool := listOccurs pat.data s.data

/-- `_regexp` of `coverage/sqldata.py`, registered as the two-argument
`REGEXP` function: `re.search(text, pattern) is not None` — the first
parameter is handed to `re.search` as the regular expression. -/
def _regexp (text pattern : String) : Bool := re_search text pattern

/-! ## Derived accessors and well-formedness -/

/-- The `line_bits` row for `(file, context)`, by the unique key. -/
def lbGet (rows : List (String × String × Numbits)) (f c : String) : Option Numbits :=
  dget (rows.map (fun r => ((r.1, r.2.1), r.2.2))) (f, c)

/-- Is line `x` recorded as executed in the store's `line_bits` row for
`(f, c)`?  (The set a lines-mode store records for a file and context.) -/
def recordedLines (s : DataState) (f c : String) (x : Nat) : Bool :=
  match lbGet s.line_bits f c with
  | some nb => numbitsHas nb x
  | none => false

/-- The local tracer `update` sees for a merged path: the tracer row's
name if one exists, `""` for a measured file without one, `none` for an
unknown file. -/
def thisTracerOf (s : DataState) (p : String) : Option String :=
  match dget s.tracer p with
  | some t => some t
  | none => if p ∈ s.file then some "" else none

/-- The tracer the other store contributes for a path (`''` if none). -/
def otherTracerOf (o : DataState) (p : String) : String :=
  (dget o.tracer p).getD ""

/-- The condition under which `update` raises "Conflicting file tracer
name" for a path. -/
def tracerConflict (s o : DataState) (p : String) : Prop :=
  thisTracerOf s p ≠ none ∧ thisTracerOf s p ≠ some (otherTracerOf o p)

/-- Well-formedness of a store state: the invariants the schema's
`unique` and foreign-key constraints and the mode gate maintain — row
keys are unique, rows reference existing `file` and `context` rows, rows
only exist in the matching mode, and the two mode flags are never both
set.  Every state reachable through the API satisfies this. -/
def WFd (s : DataState) : Prop :=
  (s.line_bits.map (fun r => (r.1, r.2.1))).Nodup
  ∧ (∀ r ∈ s.line_bits, r.1 ∈ s.file)
  ∧ (∀ r ∈ s.line_bits, r.2.1 ∈ s.context)
  ∧ (s.tracer.map Prod.fst).Nodup
  ∧ (∀ r ∈ s.tracer, r.1 ∈ s.file)
  ∧ (s.line_bits ≠ [] → s.has_lines = true)
  ∧ (s.arc ≠ [] → s.has_arcs = true)
  ∧ ¬(s.has_lines = true ∧ s.has_arcs = true)

instance (s : DataState) : Decidable (WFd s) := by
  unfold WFd; infer_instance

/-- The scaled integer whose fixed-point rendering `display_covered`
returns. -/
def displayN (p : Nat) (pc : ℚ) : ℤ :=
  rhe (displayValue p pc * 10 ^ p)

/-! ## Lemmas: dictionaries -/

theorem dget_dinsert {α β : Type} [DecidableEq α] (d : List (α × β)) (k k' : α) (v : β) :
    dget (dinsert d k v) k' = if k = k' then some v else dget d k' := by
  induction d with
  | nil => simp [dinsert, dget]
  | cons e rest ih =>
    obtain ⟨k0, v0⟩ := e
    by_cases h : k0 = k
    · subst h
      simp only [dinsert, if_pos rfl, dget]
      by_cases h' : k0 = k' <;> simp [h']
    · by_cases h' : k0 = k'
      · subst h'
        simp [dinsert, dget, h, Ne.symm h]
      · simp [dinsert, dget, h, h', ih]

theorem dget_eq_none_iff {α β : Type} [DecidableEq α] (d : List (α × β)) (k : α) :
    dget d k = none ↔ k ∉ d.map Prod.fst := by
  induction d with
  | nil => simp [dget]
  | cons e rest ih =>
    obtain ⟨k0, v0⟩ := e
    by_cases h : k0 = k
    · subst h; simp [dget]
    · simp [dget, h, ih, Ne.symm h]

theorem mem_dinsert {α β : Type} [DecidableEq α] (d : List (α × β)) (k : α) (v : β)
    (e : α × β) (he : e ∈ dinsert d k v) : e ∈ d ∨ e = (k, v) := by
  induction d with
  | nil => simpa [dinsert] using he
  | cons e0 rest ih =>
    obtain ⟨k0, v0⟩ := e0
    by_cases h : k0 = k
    · subst h
      simp only [dinsert, if_pos rfl] at he
      rcases List.mem_cons.mp he with h1 | h1
      · right; exact h1
      · left; exact List.mem_cons_of_mem _ h1
    · simp only [dinsert, if_neg h] at he
      rcases List.mem_cons.mp he with h1 | h1
      · left; exact h1 ▸ List.mem_cons_self _ _
      · rcases ih h1 with h2 | h2
        · left; exact List.mem_cons_of_mem _ h2
        · right; exact h2

theorem map_fst_dinsert {α β : Type} [DecidableEq α] (d : List (α × β)) (k : α) (v : β) :
    (dinsert d k v).map Prod.fst =
      if k ∈ d.map Prod.fst then d.map Prod.fst else d.map Prod.fst ++ [k] := by
  induction d with
  | nil => simp [dinsert]
  | cons e rest ih =>
    obtain ⟨k0, v0⟩ := e
    by_cases h : k0 = k
    · subst h; simp [dinsert]
    · simp only [dinsert, if_neg h, List.map_cons, ih]
      by_cases hk : k ∈ rest.map Prod.fst
      · simp [hk, List.mem_cons, Ne.symm h]
      · simp [hk, List.mem_cons, Ne.symm h]

theorem mem_map_fst_dinsert {α β : Type} [DecidableEq α] (d : List (α × β)) (k a : α) (v : β) :
    a ∈ (dinsert d k v).map Prod.fst ↔ a = k ∨ a ∈ d.map Prod.fst := by
  rw [map_fst_dinsert]
  by_cases h : k ∈ d.map Prod.fst
  · simp only [if_pos h]
    constructor
    · intro h1; exact Or.inr h1
    · rintro (rfl | h1)
      · exact h
      · exact h1
  · simp only [if_neg h, List.mem_append, List.mem_singleton]
    tauto

theorem nodup_map_fst_dinsert {α β : Type} [DecidableEq α] (d : List (α × β)) (k : α) (v : β)
    (h : (d.map Prod.fst).Nodup) : ((dinsert d k v).map Prod.fst).Nodup := by
  rw [map_fst_dinsert]
  split
  · exact h
  · rename_i hk
    refine List.nodup_append.mpr ⟨h, List.nodup_singleton _, ?_⟩
    intro a ha hb
    rw [List.mem_singleton] at hb
    subst hb
    exact hk ha

/-! ## Lemmas: `insert or ignore` -/

theorem mem_insertNew {α : Type} [DecidableEq α] (l : List α) (x y : α) :
    y ∈ insertNew l x ↔ y = x ∨ y ∈ l := by
  unfold insertNew
  by_cases h : x ∈ l
  · simp only [if_pos h]
    constructor
    · intro h1; exact Or.inr h1
    · rintro (rfl | h1)
      · exact h
      · exact h1
  · simp only [if_neg h, List.mem_append, List.mem_singleton]
    tauto

theorem mem_foldl_insertNew {α : Type} [DecidableEq α] (l2 l : List α) (y : α) :
    y ∈ l2.foldl insertNew l ↔ y ∈ l ∨ y ∈ l2 := by
  induction l2 generalizing l with
  | nil => simp
  | cons x rest ih =>
    simp only [List.foldl_cons, ih, mem_insertNew, List.mem_cons]
    tauto

/-! ## Lemmas: numbits -/

theorem numbits_union_getD (a b : Numbits) (i : Nat) :
    (numbits_union a b).getD i 0 = a.getD i 0 ||| b.getD i 0 := by
  induction a generalizing b i with
  | nil => simp [numbits_union]
  | cons x xs ih =>
    cases b with
    | nil => simp [numbits_union]
    | cons y ys =>
      cases i with
      | zero => simp [numbits_union]
      | succ j => simpa [numbits_union] using ih ys j

theorem numbitsHas_union (a b : Numbits) (n : Nat) :
    numbitsHas (numbits_union a b) n = (numbitsHas a n || numbitsHas b n) := by
  unfold numbitsHas
  rw [numbits_union_getD, Nat.testBit_or]

theorem mem_numbits_to_nums (nb : Numbits) (x : Nat) :
    x ∈ numbits_to_nums nb ↔ numbitsHas nb x = true := by
  unfold numbits_to_nums
  simp only [List.mem_filter, List.mem_range]
  constructor
  · intro h; exact h.2
  · intro h
    refine ⟨?_, h⟩
    by_contra hlt
    push_neg at hlt
    have hlen : nb.length ≤ x / 8 := by
      have := Nat.div_le_div_right (c := 8) hlt
      simpa [Nat.mul_div_cancel_left] using this
    have : numbitsHas nb x = false := by
      unfold numbitsHas
      rw [List.getD_eq_default _ _ hlen]
      exact Nat.zero_testBit _
    rw [this] at h
    exact Bool.false_ne_true h

/-! ## Lemmas: dict-building folds -/

theorem find?_congr_pred {α : Type} (l : List α) (p q : α → Bool) (h : ∀ a ∈ l, p a = q a) :
    l.find? p = l.find? q := by
  induction l with
  | nil => rfl
  | cons a rest ih =>
    have ha := h a (List.mem_cons_self _ _)
    by_cases hp : p a = true
    · rw [List.find?_cons_of_pos _ hp, List.find?_cons_of_pos _ (ha ▸ hp)]
    · rw [List.find?_cons_of_neg _ hp, List.find?_cons_of_neg _ (by rw [← ha]; exact hp),
        ih (fun a ha2 => h a (List.mem_cons_of_mem _ ha2))]

theorem dget_dictOf_fixed {α κ β : Type} [DecidableEq κ] (rows : List α) (f : α → κ)
    (g : α → β) (d : List (κ × β)) (k : κ) (v : β) (hv : ∀ r ∈ rows, f r = k → g r = v) :
    dget (dictOf f g d rows) k = if ∃ r ∈ rows, f r = k then some v else dget d k := by
  induction rows generalizing d with
  | nil => simp [dictOf]
  | cons r rest ih =>
    have step : dictOf f g d (r :: rest) = dictOf f g (dinsert d (f r) (g r)) rest := rfl
    rw [step, ih _ (fun a ha => hv a (List.mem_cons_of_mem _ ha))]
    by_cases hr : f r = k
    · have hgv : g r = v := hv r (List.mem_cons_self _ _) hr
      have hd : dget (dinsert d (f r) (g r)) k = some v := by
        rw [dget_dinsert, if_pos hr, hgv]
      have hex : ∃ a ∈ r :: rest, f a = k := ⟨r, List.mem_cons_self _ _, hr⟩
      rw [if_pos hex]
      split
      · rfl
      · exact hd
    · have hd : dget (dinsert d (f r) (g r)) k = dget d k := by
        rw [dget_dinsert, if_neg hr]
      have hiff : (∃ a ∈ rest, f a = k) ↔ (∃ a ∈ r :: rest, f a = k) := by
        constructor
        · rintro ⟨a, ha, hak⟩; exact ⟨a, List.mem_cons_of_mem _ ha, hak⟩
        · rintro ⟨a, ha, hak⟩
          rcases List.mem_cons.mp ha with rfl | ha2
          · exact absurd hak hr
          · exact ⟨a, ha2, hak⟩
      by_cases hex : ∃ a ∈ rest, f a = k
      · rw [if_pos hex, if_pos (hiff.mp hex)]
      · rw [if_neg hex, if_neg (fun hc => hex (hiff.mpr hc)), hd]

theorem dget_dictOf_nodup {α κ β : Type} [DecidableEq κ] (rows : List α) (f : α → κ)
    (g : α → β) (d : List (κ × β)) (k : κ) (hnd : (rows.map f).Nodup) :
    dget (dictOf f g d rows) k =
      match rows.find? (fun r => decide (f r = k)) with
      | some r => some (g r)
      | none => dget d k := by
  induction rows generalizing d with
  | nil => simp [dictOf, List.find?]
  | cons r rest ih =>
    have hnd2 : (rest.map f).Nodup := (List.nodup_cons.mp hnd).2
    have hnotin : f r ∉ rest.map f := (List.nodup_cons.mp hnd).1
    have step : dictOf f g d (r :: rest) = dictOf f g (dinsert d (f r) (g r)) rest := rfl
    rw [step, ih _ hnd2]
    by_cases hr : f r = k
    · rw [List.find?_cons_of_pos _ (by simpa using hr)]
      have hnone : rest.find? (fun a => decide (f a = k)) = none := by
        rw [List.find?_eq_none]
        intro a ha
        simp only [decide_eq_true_eq]
        intro hak
        exact hnotin (hr ▸ hak ▸ List.mem_map_of_mem f ha)
      rw [hnone]
      rw [dget_dinsert, if_pos hr]
    · rw [List.find?_cons_of_neg _ (by simpa using hr)]
      have hd : dget (dinsert d (f r) (g r)) k = dget d k := by
        rw [dget_dinsert, if_neg hr]
      split
      · rfl
      · exact hd

theorem nodup_dkeys_dictOf {α κ β : Type} [DecidableEq κ] (rows : List α) (f : α → κ)
    (g : α → β) (d : List (κ × β)) (hnd : (d.map Prod.fst).Nodup) :
    ((dictOf f g d rows).map Prod.fst).Nodup := by
  induction rows generalizing d with
  | nil => exact hnd
  | cons r rest ih => exact ih _ (nodup_map_fst_dinsert _ _ _ hnd)

theorem mem_dictOf {α κ β : Type} [DecidableEq κ] (rows : List α) (f : α → κ) (g : α → β)
    (d : List (κ × β)) (e : κ × β) (he : e ∈ dictOf f g d rows) :
    e ∈ d ∨ ∃ r ∈ rows, e = (f r, g r) := by
  induction rows generalizing d with
  | nil => exact Or.inl he
  | cons r rest ih =>
    rcases ih _ he with h1 | h1
    · rcases mem_dinsert _ _ _ _ h1 with h2 | h2
      · exact Or.inl h2
      · exact Or.inr ⟨r, List.mem_cons_self _ _, h2⟩
    · rcases h1 with ⟨a, ha, hae⟩
      exact Or.inr ⟨a, List.mem_cons_of_mem _ ha, hae⟩

theorem mem_iff_dget_nodup {κ β : Type} [DecidableEq κ] (d : List (κ × β))
    (hnd : (d.map Prod.fst).Nodup) (k : κ) (v : β) :
    (k, v) ∈ d ↔ dget d k = some v := by
  induction d with
  | nil => simp [dget]
  | cons e rest ih =>
    obtain ⟨k0, v0⟩ := e
    have hnd2 : (rest.map Prod.fst).Nodup := (List.nodup_cons.mp hnd).2
    have hnotin : k0 ∉ rest.map Prod.fst := (List.nodup_cons.mp hnd).1
    constructor
    · intro hmem
      rcases List.mem_cons.mp hmem with h1 | h1
      · have hk : k0 = k := (congrArg Prod.fst h1).symm
        have hv : v0 = v := (congrArg Prod.snd h1).symm
        simp [dget, hk, hv]
      · have hk : k0 ≠ k := by
          intro hkk
          exact hnotin (hkk ▸ List.mem_map_of_mem Prod.fst h1)
        simp only [dget, if_neg hk]
        exact (ih hnd2).mp h1
    · intro hget
      by_cases hk : k0 = k
      · subst hk
        rw [show dget ((k0, v0) :: rest) k0 = some v0 from by simp [dget]] at hget
        have hv := Option.some.inj hget
        subst hv
        exact List.mem_cons_self _ _
      · simp only [dget, if_neg hk] at hget
        exact List.mem_cons_of_mem _ ((ih hnd2).mpr hget)

theorem dget_mergeLinesDict (al : String → String) (rows : List (String × String × Numbits))
    (d : List ((String × String) × Numbits)) (k : String × String)
    (hnd : (rows.map (fun r => (al r.1, r.2.1))).Nodup) :
    dget (mergeLinesDict al rows d) k =
      match rows.find? (fun r => decide ((al r.1, r.2.1) = k)) with
      | some r => some (match dget d k with
                        | some nb => numbits_union nb r.2.2
                        | none => r.2.2)
      | none => dget d k := by
  induction rows generalizing d with
  | nil => simp [mergeLinesDict, List.find?]
  | cons r rest ih =>
    have hnd2 : (rest.map (fun r => (al r.1, r.2.1))).Nodup := (List.nodup_cons.mp hnd).2
    have hnotin : (al r.1, r.2.1) ∉ rest.map (fun r => (al r.1, r.2.1)) :=
      (List.nodup_cons.mp hnd).1
    have step : mergeLinesDict al (r :: rest) d =
        mergeLinesDict al rest (match dget d (al r.1, r.2.1) with
          | some nb => dinsert d (al r.1, r.2.1) (numbits_union nb r.2.2)
          | none => dinsert d (al r.1, r.2.1) r.2.2) := rfl
    rw [step, ih _ hnd2]
    by_cases hr : (al r.1, r.2.1) = k
    · have hnone : rest.find? (fun a => decide ((al a.1, a.2.1) = k)) = none := by
        rw [List.find?_eq_none]
        intro a ha
        simp only [decide_eq_true_eq]
        intro hak
        exact hnotin (hr ▸ hak ▸ List.mem_map_of_mem _ ha)
      rw [List.find?_cons_of_pos _ (by simpa using hr), hnone, hr]
      cases hdk : dget d k with
      | some nb => simp [dget_dinsert]
      | none => simp [dget_dinsert]
    · rw [List.find?_cons_of_neg _ (by simpa using hr)]
      have hd : dget (match dget d (al r.1, r.2.1) with
          | some nb => dinsert d (al r.1, r.2.1) (numbits_union nb r.2.2)
          | none => dinsert d (al r.1, r.2.1) r.2.2) k = dget d k := by
        cases dget d (al r.1, r.2.1) <;> simp [dget_dinsert, hr]
      rw [hd]

theorem nodup_dkeys_mergeLinesDict (al : String → String)
    (rows : List (String × String × Numbits)) (d : List ((String × String) × Numbits))
    (hnd : (d.map Prod.fst).Nodup) :
    ((mergeLinesDict al rows d).map Prod.fst).Nodup := by
  induction rows generalizing d with
  | nil => exact hnd
  | cons r rest ih =>
    have step : mergeLinesDict al (r :: rest) d =
        mergeLinesDict al rest (match dget d (al r.1, r.2.1) with
          | some nb => dinsert d (al r.1, r.2.1) (numbits_union nb r.2.2)
          | none => dinsert d (al r.1, r.2.1) r.2.2) := rfl
    rw [step]
    apply ih
    split <;> exact nodup_map_fst_dinsert _ _ _ hnd

theorem mem_mergeLinesDict (al : String → String) (rows : List (String × String × Numbits))
    (d : List ((String × String) × Numbits)) (e : (String × String) × Numbits)
    (he : e ∈ mergeLinesDict al rows d) :
    e.1 ∈ d.map Prod.fst ∨ ∃ r ∈ rows, e.1 = (al r.1, r.2.1) := by
  induction rows generalizing d with
  | nil => exact Or.inl (List.mem_map_of_mem Prod.fst he)
  | cons r rest ih =>
    have step : mergeLinesDict al (r :: rest) d =
        mergeLinesDict al rest (match dget d (al r.1, r.2.1) with
          | some nb => dinsert d (al r.1, r.2.1) (numbits_union nb r.2.2)
          | none => dinsert d (al r.1, r.2.1) r.2.2) := rfl
    rw [step] at he
    rcases ih _ he with h1 | h1
    · have h2 : e.1 = (al r.1, r.2.1) ∨ e.1 ∈ d.map Prod.fst := by
        revert h1
        split <;> intro h1 <;> rw [mem_map_fst_dinsert] at h1 <;> exact h1
      rcases h2 with h2 | h2
      · exact Or.inr ⟨r, List.mem_cons_self _ _, h2⟩
      · exact Or.inl h2
    · rcases h1 with ⟨a, ha, hae⟩
      exact Or.inr ⟨a, List.mem_cons_of_mem _ ha, hae⟩

/-! ## Lemmas: `lbGet` -/

theorem dget_map_eq_find? {α κ β : Type} [DecidableEq κ] (rows : List α) (key : α → κ)
    (val : α → β) (k : κ) :
    dget (rows.map (fun r => (key r, val r))) k =
      match rows.find? (fun r => decide (key r = k)) with
      | some r => some (val r)
      | none => none := by
  induction rows with
  | nil => simp [dget, List.find?]
  | cons r rest ih =>
    by_cases hr : key r = k
    · rw [List.map_cons, List.find?_cons_of_pos _ (by simpa using hr)]
      simp [dget, hr]
    · rw [List.map_cons, List.find?_cons_of_neg _ (by simpa using hr)]
      simpa [dget, hr] using ih

theorem lbGet_map_flatten (d : List ((String × String) × Numbits)) (f c : String) :
    lbGet (d.map (fun kv => (kv.1.1, kv.1.2, kv.2))) f c = dget d (f, c) := by
  unfold lbGet
  rw [List.map_map]
  have hcomp : ((fun r : String × String × Numbits => ((r.1, r.2.1), r.2.2)) ∘
      (fun kv : (String × String) × Numbits => (kv.1.1, kv.1.2, kv.2))) = id := by
    funext kv
    simp
  rw [hcomp, List.map_id]

theorem lbGet_eq_find? (rows : List (String × String × Numbits)) (f c : String) :
    lbGet rows f c =
      match rows.find? (fun r => decide ((r.1, r.2.1) = (f, c))) with
      | some r => some r.2.2
      | none => none := by
  induction rows with
  | nil => simp [lbGet, dget, List.find?]
  | cons r rest ih =>
    by_cases hr : (r.1, r.2.1) = (f, c)
    · rw [List.find?_cons_of_pos _ (by simpa using hr)]
      simp [lbGet, dget, hr]
    · rw [List.find?_cons_of_neg _ (by simpa using hr)]
      simpa [lbGet, dget, hr] using ih

/-! ## Lemmas: the mode gate and the ingestion operations -/

theorem choose_lines_eq (s : DataState) :
    s.choose_lines_or_arcs true false =
      if s.has_arcs = true then .error "Can't add lines to existing arc data"
      else .ok { s with has_lines := true, has_arcs := false } := by
  obtain ⟨hl, ha, f, c, lb, ar, tr, cc, qc⟩ := s
  unfold DataState.choose_lines_or_arcs
  cases ha <;> cases hl <;> simp

theorem choose_arcs_eq (s : DataState) :
    s.choose_lines_or_arcs false true =
      if s.has_lines = true then .error "Can't add arcs to existing line data"
      else .ok { s with has_lines := false, has_arcs := true } := by
  obtain ⟨hl, ha, f, c, lb, ar, tr, cc, qc⟩ := s
  unfold DataState.choose_lines_or_arcs
  cases ha <;> cases hl <;> simp

theorem addLinesOne_fields (ctx : String) (s : DataState) (fl : String × List Nat) :
    (addLinesOne ctx s fl).has_lines = s.has_lines
    ∧ (addLinesOne ctx s fl).has_arcs = s.has_arcs
    ∧ (addLinesOne ctx s fl).arc = s.arc
    ∧ (addLinesOne ctx s fl).context = s.context
    ∧ (addLinesOne ctx s fl).tracer = s.tracer := by
  constructor
  · rfl
  · exact ⟨rfl, rfl, rfl, rfl⟩

theorem foldl_addLinesOne_fields (ctx : String) (l : List (String × List Nat))
    (s : DataState) :
    ((l.foldl (addLinesOne ctx) s).has_lines = s.has_lines
    ∧ (l.foldl (addLinesOne ctx) s).has_arcs = s.has_arcs
    ∧ (l.foldl (addLinesOne ctx) s).arc = s.arc
    ∧ (l.foldl (addLinesOne ctx) s).tracer = s.tracer) := by
  induction l generalizing s with
  | nil => exact ⟨rfl, rfl, rfl, rfl⟩
  | cons fl rest ih =>
    rw [List.foldl_cons]
    obtain ⟨h1, h2, h3, h4⟩ := ih (addLinesOne ctx s fl)
    obtain ⟨g1, g2, g3, -, g5⟩ := addLinesOne_fields ctx s fl
    exact ⟨h1.trans g1, h2.trans g2, h3.trans g3, h4.trans g5⟩

theorem addArcsOne_fields (ctx : String) (s : DataState) (fa : String × List (Int × Int)) :
    (addArcsOne ctx s fa).has_lines = s.has_lines
    ∧ (addArcsOne ctx s fa).has_arcs = s.has_arcs
    ∧ (addArcsOne ctx s fa).line_bits = s.line_bits
    ∧ (addArcsOne ctx s fa).tracer = s.tracer := by
  exact ⟨rfl, rfl, rfl, rfl⟩

theorem foldl_addArcsOne_fields (ctx : String) (l : List (String × List (Int × Int)))
    (s : DataState) :
    ((l.foldl (addArcsOne ctx) s).has_lines = s.has_lines
    ∧ (l.foldl (addArcsOne ctx) s).has_arcs = s.has_arcs
    ∧ (l.foldl (addArcsOne ctx) s).line_bits = s.line_bits
    ∧ (l.foldl (addArcsOne ctx) s).tracer = s.tracer) := by
  induction l generalizing s with
  | nil => exact ⟨rfl, rfl, rfl, rfl⟩
  | cons fa rest ih =>
    rw [List.foldl_cons]
    obtain ⟨h1, h2, h3, h4⟩ := ih (addArcsOne ctx s fa)
    obtain ⟨g1, g2, g3, g4⟩ := addArcsOne_fields ctx s fa
    exact ⟨h1.trans g1, h2.trans g2, h3.trans g3, h4.trans g4⟩

theorem add_lines_fail (s : DataState) (h : s.has_arcs = true)
    (d : List (String × List Nat)) :
    s.add_lines d = .error "Can't add lines to existing arc data" := by
  unfold DataState.add_lines
  rw [choose_lines_eq, if_pos h]
  rfl

theorem add_arcs_fail (s : DataState) (h : s.has_lines = true)
    (d : List (String × List (Int × Int))) :
    s.add_arcs d = .error "Can't add arcs to existing line data" := by
  unfold DataState.add_arcs
  rw [choose_arcs_eq, if_pos h]
  rfl

theorem add_lines_ok_flags (s : DataState) (d : List (String × List Nat)) (t : DataState)
    (h : s.add_lines d = .ok t) :
    t.has_lines = true ∧ t.has_arcs = false ∧ t.arc = s.arc ∧ t.tracer = s.tracer := by
  unfold DataState.add_lines at h
  rw [choose_lines_eq] at h
  by_cases hA : s.has_arcs = true
  · rw [if_pos hA] at h
    exact absurd h (by simp [Bind.bind, Except.bind])
  · rw [if_neg hA] at h
    simp only [Bind.bind, Except.bind] at h
    by_cases hd : d.isEmpty
    · rw [if_pos hd] at h
      have ht : t = { s with has_lines := true, has_arcs := false } :=
        (Except.ok.inj h).symm
      rw [ht]
      exact ⟨rfl, rfl, rfl, rfl⟩
    · rw [if_neg hd] at h
      have ht := (Except.ok.inj h).symm
      obtain ⟨h1, h2, h3, h4⟩ := foldl_addLinesOne_fields
        (({ s with has_lines := true, has_arcs := false} : DataState).set_context_id.current_context.getD "") d
        ({ s with has_lines := true, has_arcs := false} : DataState).set_context_id
      rw [ht]
      exact ⟨h1, h2, h3, h4⟩

theorem add_arcs_ok_flags (s : DataState) (d : List (String × List (Int × Int)))
    (t : DataState) (h : s.add_arcs d = .ok t) :
    t.has_arcs = true ∧ t.has_lines = false ∧ t.line_bits = s.line_bits
    ∧ t.tracer = s.tracer := by
  unfold DataState.add_arcs at h
  rw [choose_arcs_eq] at h
  by_cases hL : s.has_lines = true
  · rw [if_pos hL] at h
    exact absurd h (by simp [Bind.bind, Except.bind])
  · rw [if_neg hL] at h
    simp only [Bind.bind, Except.bind] at h
    by_cases hd : d.isEmpty
    · rw [if_pos hd] at h
      have ht : t = { s with has_lines := false, has_arcs := true } :=
        (Except.ok.inj h).symm
      rw [ht]
      exact ⟨rfl, rfl, rfl, rfl⟩
    · rw [if_neg hd] at h
      have ht := (Except.ok.inj h).symm
      obtain ⟨h1, h2, h3, h4⟩ := foldl_addArcsOne_fields
        (({ s with has_lines := false, has_arcs := true} : DataState).set_context_id.current_context.getD "") d
        ({ s with has_lines := false, has_arcs := true} : DataState).set_context_id
      rw [ht]
      exact ⟨h2, h1, h3, h4⟩

theorem add_file_tracers_ok_flags (s : DataState) (ft : List (String × String))
    (t : DataState) (h : s.add_file_tracers ft = .ok t) :
    t.has_lines = s.has_lines ∧ t.has_arcs = s.has_arcs ∧ t.line_bits = s.line_bits
    ∧ t.arc = s.arc := by
  unfold DataState.add_file_tracers at h
  by_cases hft : ft.isEmpty
  · rw [if_pos hft] at h
    have ht := (Except.ok.inj h).symm
    rw [ht]
    exact ⟨rfl, rfl, rfl, rfl⟩
  · rw [if_neg hft] at h
    clear hft
    induction ft generalizing s with
    | nil => simp only [List.foldlM_nil] at h
             have ht := (Except.ok.inj h).symm
             rw [ht]
             exact ⟨rfl, rfl, rfl, rfl⟩
    | cons fp rest ih =>
      rw [List.foldlM_cons] at h
      by_cases hmem : fp.1 ∉ s.file
      · rw [if_pos hmem] at h
        exact absurd h (by simp [Bind.bind, Except.bind])
      · rw [if_neg hmem] at h
        by_cases he : (s.file_tracer fp.1).getD "" ≠ ""
        · rw [if_pos he] at h
          by_cases he2 : (s.file_tracer fp.1).getD "" ≠ fp.2
          · rw [if_pos he2] at h
            exact absurd h (by simp [Bind.bind, Except.bind])
          · rw [if_neg he2] at h
            simp only [Bind.bind, Except.bind] at h
            exact ih s h
        · rw [if_neg he] at h
          by_cases he3 : fp.2 ≠ ""
          · rw [if_pos he3] at h
            simp only [Bind.bind, Except.bind] at h
            obtain ⟨h1, h2, h3, h4⟩ := ih { s with tracer := s.tracer ++ [(fp.1, fp.2)] } h
            exact ⟨h1, h2, h3, h4⟩
          · rw [if_neg he3] at h
            simp only [Bind.bind, Except.bind] at h
            exact ih s h

/-! ## Lemmas: substring search -/

theorem listStartsAt_iff (pat l : List Char) :
    listStartsAt pat l = true ↔ ∃ post, l = pat ++ post := by
  induction pat generalizing l with
  | nil => simp [listStartsAt]
  | cons a ps ih =>
    cases l with
    | nil => simp [listStartsAt]
    | cons b ts =>
      simp only [listStartsAt, Bool.and_eq_true, decide_eq_true_eq, ih]
      constructor
      · rintro ⟨rfl, post, rfl⟩
        exact ⟨post, rfl⟩
      · rintro ⟨post, h⟩
        rw [List.cons_append] at h
        have hb : b = a := (List.cons.injEq .. ▸ h).1
        have ht : ts = ps ++ post := (List.cons.injEq .. ▸ h).2
        exact ⟨hb.symm, post, ht⟩

theorem listOccurs_iff (pat l : List Char) :
    listOccurs pat l = true ↔ ∃ pre post, l = pre ++ pat ++ post := by
  induction l with
  | nil =>
    simp only [listOccurs, listStartsAt_iff]
    constructor
    · rintro ⟨post, h⟩
      exact ⟨[], post, by simpa using h⟩
    · rintro ⟨pre, post, h⟩
      refine ⟨post, ?_⟩
      have hpre : pre = [] := by
        cases pre with
        | nil => rfl
        | cons p ps => simp at h
      rw [hpre] at h
      simpa using h
  | cons c ts ih =>
    simp only [listOccurs, Bool.or_eq_true, listStartsAt_iff, ih]
    constructor
    · rintro (⟨post, h⟩ | ⟨pre, post, h⟩)
      · exact ⟨[], post, by simpa using h⟩
      · exact ⟨c :: pre, post, by simp [h]⟩
    · rintro ⟨pre, post, h⟩
      cases pre with
      | nil => exact Or.inl ⟨post, by simpa using h⟩
      | cons p pre2 =>
        right
        rw [List.cons_append, List.cons_append] at h
        have ht : ts = pre2 ++ pat ++ post := (List.cons.injEq .. ▸ h).2
        exact ⟨pre2, post, by simpa using ht⟩

/-! ## The claims -/

/-- C2: after a successful `add_lines` the store is lines-mode and every
`add_arcs` fails with `DataError` "Can't add arcs to existing line data";
symmetrically after a successful `add_arcs` every `add_lines` fails with
"Can't add lines to existing arc data"; further successful ingestion
(`add_lines` / `add_file_tracers`, resp. `add_arcs` / `add_file_tracers`)
keeps the chosen mode, so the first ingestion fixes it for the store's
lifetime. -/
theorem C2_mode_lock (s t : DataState) (d : List (String × List Nat))
    (d' : List (String × List (Int × Int))) :
    (s.add_lines d = .ok t →
      t.has_lines = true ∧ t.has_arcs = false
      ∧ (∀ d2, t.add_arcs d2 = .error "Can't add arcs to existing line data")
      ∧ (∀ d3 u, t.add_lines d3 = .ok u → u.has_lines = true ∧ u.has_arcs = false)
      ∧ (∀ ft u, t.add_file_tracers ft = .ok u → u.has_lines = true ∧ u.has_arcs = false))
    ∧ (s.add_arcs d' = .ok t →
      t.has_arcs = true ∧ t.has_lines = false
      ∧ (∀ d2, t.add_lines d2 = .error "Can't add lines to existing arc data")
      ∧ (∀ d3 u, t.add_arcs d3 = .ok u → u.has_arcs = true ∧ u.has_lines = false)
      ∧ (∀ ft u, t.add_file_tracers ft = .ok u → u.has_arcs = true ∧ u.has_lines = false)) := by
  constructor
  · intro h
    obtain ⟨h1, h2, -, -⟩ := add_lines_ok_flags s d t h
    refine ⟨h1, h2, fun d2 => add_arcs_fail t h1 d2, ?_, ?_⟩
    · intro d3 u hu
      obtain ⟨g1, g2, -, -⟩ := add_lines_ok_flags t d3 u hu
      exact ⟨g1, g2⟩
    · intro ft u hu
      obtain ⟨g1, g2, -, -⟩ := add_file_tracers_ok_flags t ft u hu
      exact ⟨g1.trans h1, g2.trans h2⟩
  · intro h
    obtain ⟨h1, h2, -, -⟩ := add_arcs_ok_flags s d' t h
    refine ⟨h1, h2, fun d2 => add_lines_fail t h1 d2, ?_, ?_⟩
    · intro d3 u hu
      obtain ⟨g1, g2, -, -⟩ := add_arcs_ok_flags t d3 u hu
      exact ⟨g1, g2⟩
    · intro ft u hu
      obtain ⟨g1, g2, -, -⟩ := add_file_tracers_ok_flags t ft u hu
      exact ⟨g2.trans h1, g1.trans h2⟩

/-- C9: `add_lines` with an empty mapping on an empty store already fixes
lines-mode — no line was recorded, yet any later `add_arcs` fails; and
symmetrically `add_arcs` with an empty mapping locks arcs-mode. -/
theorem C9_empty_data_locks_mode (d2 : List (String × List (Int × Int)))
    (d3 : List (String × List Nat)) :
    (∃ t, initState.add_lines [] = .ok t ∧ t.line_bits = [] ∧ t.arc = []
      ∧ t.has_lines = true
      ∧ t.add_arcs d2 = .error "Can't add arcs to existing line data")
    ∧ (∃ u, initState.add_arcs [] = .ok u ∧ u.arc = [] ∧ u.line_bits = []
      ∧ u.has_arcs = true
      ∧ u.add_lines d3 = .error "Can't add lines to existing arc data") := by
  refine ⟨⟨{ initState with has_lines := true }, rfl, rfl, rfl, rfl, ?_⟩,
    ⟨{ initState with has_arcs := true }, rfl, rfl, rfl, rfl, ?_⟩⟩
  · exact add_arcs_fail _ rfl d2
  · exact add_lines_fail _ rfl d3

/-- C7 counterexample: on a store whose file `"f"` already carries the
non-empty tracer `"p"`, `add_file_tracers({"f": ""})` is not a no-op — it
raises the "Conflicting file tracer name" `DataError` (`'p' vs ''`). -/
theorem C7_counterexample :
    (do
      let a ← initState.add_lines [("f", [1])]
      let b ← a.add_file_tracers [("f", "p")]
      b.add_file_tracers [("f", "")]) = Except.error (conflictMsg "f" "p" "") := by
  rfl

/-- C7 amended: for a measured file, an empty tracer name is a no-op
exactly when the file's existing tracer is empty (or absent); when a
non-empty tracer exists, the empty name raises the tracer-conflict
`DataError` instead. -/
theorem C7_amended (s : DataState) (f : String) (hf : f ∈ s.file) :
    (s.file_tracer f = some "" → s.add_file_tracers [(f, "")] = .ok s)
    ∧ (∀ tr, tr ≠ "" → s.file_tracer f = some tr →
        s.add_file_tracers [(f, "")] = .error (conflictMsg f tr "")) := by
  constructor
  · intro h
    simp [DataState.add_file_tracers, hf, h, Bind.bind, Except.bind, pure, Except.pure]
  · intro tr htr h
    simp [DataState.add_file_tracers, hf, h, htr, Bind.bind, Except.bind]

/-- C7 witness: a concrete store with file "f" measured and no tracer,
where the empty tracer name is indeed a no-op. -/
theorem C7_witness :
    (∃ s : DataState, initState.add_lines [("f", [1])] = .ok s ∧ ("f" ∈ s.file)
      ∧ s.file_tracer "f" = some "" ∧ s.add_file_tracers [("f", "")] = .ok s) := by
  refine ⟨_, rfl, ?_, ?_⟩
  · decide
  · refine ⟨?_, ?_⟩
    · decide
    · exact (C7_amended _ "f" (by decide)).1 (by decide)

/-- C3 counterexample: at `text = "ab"`, `pattern = "a"`, the claim
demands `REGEXP("ab", "a")` be true (the pattern `"a"` occurs in the text
`"ab"`), but `_regexp` returns false — it searches its first argument as
the regex inside its second. -/
theorem C3_counterexample :
    ¬(_regexp "ab" "a" = true ↔ re_search "a" "ab" = true) := by
  decide

/-- C3 amended: `_regexp(text, pattern)` returns true iff its FIRST
argument occurs (as an unanchored substring, i.e. `re.search` of a
literal regex) inside its SECOND argument — the arguments are reversed
with respect to the claim's reading.  (SQLite invokes `X REGEXP Y` as
`regexp(Y, X)`, so the SQL-level operator still matches the pattern `Y`
against the text `X`.) -/
theorem C3_amended (text pattern : String) :
    _regexp text pattern = true ↔
      ∃ pre post : List Char, pattern.data = pre ++ text.data ++ post := by
  exact listOccurs_iff text.data pattern.data

/-- C8: `format_lines` coalesces consecutive runs of statements falling
in `lines` into `a-b` tokens (even across gaps in the statement
numbering), renders singletons as `a`, and joins tokens with ", " in
ascending order of starting line; on the spec's example it yields
exactly "1-2, 5-11, 13-14". -/
theorem C8_format_lines :
    format_lines [1, 2, 3, 4, 5, 10, 11, 12, 13, 14] [1, 2, 5, 10, 11, 13, 14] none
      = "1-2, 5-11, 13-14"
    ∧ format_lines [1, 2, 3] [2] none = "2"
    ∧ format_lines [1, 3, 5, 9] [3, 5] none = "3-5"
    ∧ nice_pair (7, 7) = "7" ∧ nice_pair (5, 11) = "5-11" := by
  exact ⟨rfl, rfl, rfl, rfl, rfl⟩

/-! ## Lemmas: round-half-even -/

theorem ratFloor_le (x : ℚ) : (x.floor : ℚ) ≤ x := Rat.le_floor.mp le_rfl

theorem ratFloor_lt_add_one (x : ℚ) : x < (x.floor : ℚ) + 1 := by
  by_contra h
  push_neg at h
  have h2 : x.floor + 1 ≤ x.floor := Rat.le_floor.mpr (by push_cast; linarith)
  omega

theorem ratFloor_eq (x : ℚ) (n : ℤ) (h1 : (n : ℚ) ≤ x) (h2 : x < (n : ℚ) + 1) :
    x.floor = n := by
  have ha : n ≤ x.floor := Rat.le_floor.mpr h1
  have hb : x.floor < n + 1 := by
    by_contra h
    push_neg at h
    have h3 := Rat.le_floor.mp h
    push_cast at h3
    linarith
  omega

theorem rhe_ge_floor (x : ℚ) : x.floor ≤ rhe x := by
  simp only [rhe]
  split
  · exact le_rfl
  · split
    · omega
    · split <;> omega

theorem rhe_le_half (x : ℚ) : (rhe x : ℚ) ≤ x + 1 / 2 := by
  have hfl := ratFloor_le x
  simp only [rhe]
  split <;> rename_i hc1
  · linarith
  · split <;> rename_i hc2
    · push_cast
      linarith
    · have heq : x - (x.floor : ℚ) = 1 / 2 := le_antisymm (not_lt.mp hc2) (not_lt.mp hc1)
      split <;> push_cast <;> linarith

theorem rhe_eq_low (x : ℚ) (n : ℤ) (h1 : (n : ℚ) ≤ x) (h2 : x < (n : ℚ) + 1 / 2) :
    rhe x = n := by
  have hf : x.floor = n := ratFloor_eq x n h1 (by linarith)
  simp only [rhe, hf]
  rw [if_pos (by linarith)]

theorem rhe_eq_high (x : ℚ) (n : ℤ) (h1 : (n : ℚ) - 1 / 2 < x) (h2 : x ≤ (n : ℚ)) :
    rhe x = n := by
  rcases eq_or_lt_of_le h2 with heq | hlt
  · exact rhe_eq_low x n (le_of_eq heq.symm) (by linarith)
  · have hf : x.floor = n - 1 := ratFloor_eq x (n - 1) (by push_cast; linarith)
      (by push_cast; linarith)
    simp only [rhe, hf]
    rw [if_neg (by push_cast; linarith), if_pos (by push_cast; linarith)]
    omega

theorem rhe_intCast (n : ℤ) : rhe ((n : ℚ)) = n :=
  rhe_eq_low _ n le_rfl (by linarith)

/-! ## Lemmas: `display_covered` branches -/

theorem displayN_low (p : Nat) (pc : ℚ) (h1 : 0 < pc) (h2 : pc < 1 / 10 ^ p) :
    displayN p pc = 1 := by
  unfold displayN displayValue
  rw [if_pos ⟨h1, h2⟩]
  have hten : (10 : ℚ) ^ p ≠ 0 := by positivity
  rw [div_mul_cancel₀ _ hten]
  simpa using rhe_intCast 1

theorem one_le_ten_pow (p : Nat) : (1 : ℚ) ≤ 10 ^ p :=
  one_le_pow₀ (by norm_num)

theorem displayN_high (p : Nat) (pc : ℚ) (h1 : 100 - 1 / 10 ^ p < pc) (h2 : pc < 100) :
    displayN p pc = 100 * 10 ^ p - 1 := by
  have hge := one_le_ten_pow p
  have hinv : 1 / (10 : ℚ) ^ p ≤ 1 := by
    rw [div_le_one (by positivity)]
    exact hge
  have hnot : ¬(0 < pc ∧ pc < 1 / 10 ^ p) := by
    rintro ⟨g1, g2⟩
    linarith
  unfold displayN displayValue
  rw [if_neg hnot, if_pos ⟨h1, h2⟩]
  have hten : (10 : ℚ) ^ p ≠ 0 := by positivity
  have hexp : (100 - 1 / 10 ^ p) * 10 ^ p = ((100 * 10 ^ p - 1 : ℤ) : ℚ) := by
    push_cast [sub_mul]
    rw [div_mul_cancel₀ _ hten]
  rw [hexp, rhe_intCast]

theorem displayN_else (p : Nat) (pc : ℚ) (h1 : ¬(0 < pc ∧ pc < 1 / 10 ^ p))
    (h2 : ¬(100 - 1 / 10 ^ p < pc ∧ pc < 100)) :
    displayN p pc = rhe (pc * 10 ^ p) := by
  unfold displayN displayValue
  rw [if_neg h1, if_neg h2]
  unfold pyRound
  have hten : (10 : ℚ) ^ p ≠ 0 := by positivity
  rw [div_mul_cancel₀ _ hten, rhe_intCast]

theorem displayN_pos (p : Nat) (pc : ℚ) (h : 0 < pc) : 1 ≤ displayN p pc := by
  have hgeZ : (1 : ℤ) ≤ 10 ^ p := one_le_pow₀ (by norm_num)
  by_cases hb1 : 0 < pc ∧ pc < 1 / 10 ^ p
  · rw [displayN_low p pc hb1.1 hb1.2]
  · by_cases hb2 : 100 - 1 / 10 ^ p < pc ∧ pc < 100
    · rw [displayN_high p pc hb2.1 hb2.2]
      linarith
    · rw [displayN_else p pc hb1 hb2]
      push_neg at hb1
      have hge : 1 / (10 : ℚ) ^ p ≤ pc := hb1 h
      have h1y : (1 : ℚ) ≤ pc * 10 ^ p := by
        rw [div_le_iff₀ (by positivity)] at hge
        linarith
      have hfl : (1 : ℤ) ≤ (pc * 10 ^ p).floor := Rat.le_floor.mpr (by push_cast; linarith)
      exact hfl.trans (rhe_ge_floor _)

theorem displayN_lt100 (p : Nat) (pc : ℚ) (h : pc < 100) :
    displayN p pc ≤ 100 * 10 ^ p - 1 := by
  have hgeZ : (1 : ℤ) ≤ 10 ^ p := one_le_pow₀ (by norm_num)
  by_cases hb1 : 0 < pc ∧ pc < 1 / 10 ^ p
  · rw [displayN_low p pc hb1.1 hb1.2]
    linarith
  · by_cases hb2 : 100 - 1 / 10 ^ p < pc ∧ pc < 100
    · rw [displayN_high p pc hb2.1 hb2.2]
    · rw [displayN_else p pc hb1 hb2]
      push_neg at hb2
      have hle : pc ≤ 100 - 1 / 10 ^ p := by
        by_contra hgt
        push_neg at hgt
        exact absurd (hb2 hgt) (not_le.mpr h)
      have h10 : (0 : ℚ) < 10 ^ p := by positivity
      have hM : pc * 10 ^ p ≤ ((100 * 10 ^ p - 1 : ℤ) : ℚ) := by
        push_cast
        have hle2 : pc + 1 / 10 ^ p ≤ (100 : ℚ) := by linarith
        have hmul := mul_le_mul_of_nonneg_right hle2 (le_of_lt h10)
        rw [add_mul, div_mul_cancel₀ _ (ne_of_gt h10)] at hmul
        linarith
      have hh := rhe_le_half (pc * 10 ^ p)
      have hlt : (rhe (pc * 10 ^ p) : ℚ) < ((100 * 10 ^ p - 1 : ℤ) : ℚ) + 1 := by linarith
      have hltZ : rhe (pc * 10 ^ p) < 100 * 10 ^ p - 1 + 1 := by exact_mod_cast hlt
      omega

theorem display_covered_eq_of (p : Nat) (pc : ℚ) (n : ℤ) (h : displayN p pc = n) :
    display_covered p pc = fixedFormatInt p n := by
  show fixedFormatInt p (displayN p pc) = _
  rw [h]

/-- The double the Python literal `50.555` denotes renders as "50.55" at
precision 2: its exact value, 50.554999999999999715…, rounds down. -/
theorem display_covered_50555 :
    display_covered 2 (7114983723803607 / 140737488355328) = "50.55" := by
  have hne : displayN 2 (7114983723803607 / 140737488355328) = 5055 := by
    rw [displayN_else 2 _ ?side1 ?side2]
    case side1 =>
      rintro ⟨-, h2⟩
      norm_num at h2
    case side2 =>
      rintro ⟨h1, -⟩
      norm_num at h1
    exact rhe_eq_low _ 5055 (by push_cast; norm_num) (by push_cast; norm_num)
  rw [display_covered_eq_of 2 _ _ hne]
  decide

/-- C4 counterexample: at the input the Python float literal `50.555`
denotes — the double 7114983723803607/2^47 = 50.554999999999999715… —
`display_covered` with precision 2 renders "50.55", not the "50.56" the
claim requires. -/
theorem C4_counterexample :
    display_covered 2 (7114983723803607 / 140737488355328) = "50.55"
    ∧ display_covered 2 (7114983723803607 / 140737488355328) ≠ "50.56" := by
  refine ⟨display_covered_50555, ?_⟩
  rw [display_covered_50555]
  decide

/-- C4 amended: the three display branches hold as claimed over the exact
rational values (low inputs render as `10^-p`, near-100 inputs as
`100 - 10^-p`, the rest as round-half-even at `p` digits — rounding of
the exact binary value of the double, so `display_covered(50.555)` is
"50.55", the double being slightly below the decimal 50.555), the
displayed value is never the zero string for positive input nor "100"
for input below 100, and the spec's other boundary examples hold. -/
theorem C4_amended (p : Nat) (hp : p < 10) (pc : ℚ) :
    display_covered p pc = fixedFormatInt p (displayN p pc)
    ∧ (0 < pc → pc < 1 / 10 ^ p → displayN p pc = 1)
    ∧ (100 - 1 / 10 ^ p < pc → pc < 100 → displayN p pc = 100 * 10 ^ p - 1)
    ∧ (¬(0 < pc ∧ pc < 1 / 10 ^ p) → ¬(100 - 1 / 10 ^ p < pc ∧ pc < 100) →
        displayN p pc = rhe (pc * 10 ^ p))
    ∧ (0 < pc → 1 ≤ displayN p pc)
    ∧ (pc < 100 → displayN p pc ≤ 100 * 10 ^ p - 1)
    ∧ display_covered 2 (7114983723803607 / 140737488355328) = "50.55"
    ∧ display_covered 2 100 = "100.00"
    ∧ display_covered 2 (1 / 200) = "0.01"
    ∧ display_covered 2 (19999 / 200) = "99.99"
    ∧ display_covered 0 0 = "0" := by
  refine ⟨rfl, displayN_low p pc, displayN_high p pc, displayN_else p pc,
    displayN_pos p pc, displayN_lt100 p pc, display_covered_50555, ?_, ?_, ?_, ?_⟩
  · have hn : displayN 2 (100 : ℚ) = 10000 := by
      rw [displayN_else 2 _ ?s1 ?s2]
      case s1 =>
        rintro ⟨-, h2⟩
        norm_num at h2
      case s2 =>
        rintro ⟨-, h2⟩
        exact absurd h2 (by norm_num)
      exact rhe_eq_low _ 10000 (by push_cast; norm_num) (by push_cast; norm_num)
    rw [display_covered_eq_of 2 _ _ hn]
    decide
  · have hn : displayN 2 ((1 : ℚ) / 200) = 1 := displayN_low 2 _ (by norm_num) (by norm_num)
    rw [display_covered_eq_of 2 _ _ hn]
    decide
  · have hn : displayN 2 ((19999 : ℚ) / 200) = 9999 := by
      have := displayN_high 2 ((19999 : ℚ) / 200) (by norm_num) (by norm_num)
      simpa using this
    rw [display_covered_eq_of 2 _ _ hn]
    decide
  · have hn : displayN 0 (0 : ℚ) = 0 := by
      rw [displayN_else 0 _ ?t1 ?t2]
      case t1 =>
        rintro ⟨h2, -⟩
        norm_num at h2
      case t2 =>
        rintro ⟨h2, -⟩
        norm_num at h2
      exact rhe_eq_low _ 0 (by push_cast; norm_num) (by push_cast; norm_num)
    rw [display_covered_eq_of 0 _ _ hn]
    decide

/-- C4 witness: the amended theorem applied at precision 2 and the
concrete input 1/200 (an `ε` with `0 < ε < 0.01`). -/
theorem C4_witness : displayN 2 ((1 : ℚ) / 200) = 1 :=
  (C4_amended 2 (by norm_num) ((1 : ℚ) / 200)).2.1 (by norm_num) (by norm_num)

/-- C5: `should_fail_under` raises `ConfigError` exactly when
`fail_under ∉ [0, 100]`; otherwise it returns true when
`fail_under == 100` and `total ≠ 100`, and in every remaining case
returns true iff `round(total, precision) < fail_under`; on doubles,
`fail_under=100, total=99.9999 → true`, `fail_under=90, total=89.9,
precision=0 → false`, and `fail_under=-1` raises. -/
theorem C5_should_fail_under (total fail_under : ℚ) (precision : Nat) :
    ((∃ e, should_fail_under total fail_under precision = .error e) ↔
      ¬(0 ≤ fail_under ∧ fail_under ≤ 100))
    ∧ (0 ≤ fail_under → fail_under ≤ 100 → fail_under = 100 → total ≠ 100 →
        should_fail_under total fail_under precision = .ok true)
    ∧ (0 ≤ fail_under → fail_under ≤ 100 → ¬(fail_under = 100 ∧ total ≠ 100) →
        should_fail_under total fail_under precision
          = .ok (decide (pyRound total precision < fail_under)))
    ∧ should_fail_under (3518433690445991 / 35184372088832) 100 2 = .ok true
    ∧ should_fail_under (3163075050785997 / 35184372088832) 90 0 = .ok false
    ∧ (∃ e, should_fail_under 50 (-1) 0 = .error e) := by
  refine ⟨?_, ?_, ?_, ?_, ?_, ?_⟩
  · constructor
    · rintro ⟨e, he⟩
      intro hrange
      unfold should_fail_under at he
      rw [if_neg (not_not.mpr hrange)] at he
      split at he <;> exact Except.noConfusion he
    · intro hrange
      refine ⟨"fail_under is invalid. Must be between 0 and 100.", ?_⟩
      unfold should_fail_under
      rw [if_pos hrange]
  · intro h1 h2 h3 h4
    unfold should_fail_under
    rw [if_neg (not_not.mpr ⟨h1, h2⟩), if_pos ⟨h3, h4⟩]
  · intro h1 h2 h3
    unfold should_fail_under
    rw [if_neg (not_not.mpr ⟨h1, h2⟩), if_neg h3]
  · unfold should_fail_under
    rw [if_neg (by norm_num), if_pos (by norm_num)]
  · unfold should_fail_under
    rw [if_neg (by norm_num), if_neg (by norm_num)]
    have h90 : rhe ((3163075050785997 : ℚ) / 35184372088832 * 10 ^ 0) = 90 := by
      apply rhe_eq_high _ 90 (by push_cast; norm_num) (by push_cast; norm_num)
    have hpr : pyRound ((3163075050785997 : ℚ) / 35184372088832) 0 = 90 := by
      unfold pyRound
      rw [h90]
      norm_num
    rw [hpr, show decide ((90 : ℚ) < 90) = false from decide_eq_false (by norm_num)]
  · refine ⟨"fail_under is invalid. Must be between 0 and 100.", ?_⟩
    unfold should_fail_under
    rw [if_pos (by norm_num)]

/-- C5 witness: the characterization applied at the concrete spec example
`fail_under = 90`, `total = 89.9` (as a double), `precision = 0`. -/
theorem C5_witness :
    should_fail_under ((3163075050785997 : ℚ) / 35184372088832) 90 0
      = .ok (decide (pyRound ((3163075050785997 : ℚ) / 35184372088832) 0 < 90)) :=
  (C5_should_fail_under ((3163075050785997 : ℚ) / 35184372088832) 90 0).2.2.1
    (by norm_num) (by norm_num) (by norm_num)

/-! ## Lemmas: `contexts_by_lineno` key sets -/

theorem mem_keys_of_dget {α β : Type} [DecidableEq α] (m : List (α × β)) (k : α) (v : β)
    (h : dget m k = some v) : k ∈ m.map Prod.fst := by
  by_contra hk
  rw [(dget_eq_none_iff m k).mpr hk] at h
  exact Option.noConfusion h

theorem mem_keys_addCtxGuard (m : List (Int × List String)) (k l : Int) (c : String) :
    l ∈ (addCtxGuard m k c).map Prod.fst ↔ l = k ∨ l ∈ m.map Prod.fst := by
  cases hdg : dget m k with
  | some lst =>
    have hk : k ∈ m.map Prod.fst := mem_keys_of_dget m k lst hdg
    simp only [addCtxGuard, hdg]
    by_cases hc : c ∈ lst
    · rw [if_pos hc]
      constructor
      · exact Or.inr
      · rintro (rfl | h1)
        · exact hk
        · exact h1
    · rw [if_neg hc, mem_map_fst_dinsert]
  | none =>
    simp only [addCtxGuard, hdg]
    rw [mem_map_fst_dinsert]

theorem mem_keys_addCtxAlways (m : List (Int × List String)) (k l : Int) (c : String) :
    l ∈ (addCtxAlways m k c).map Prod.fst ↔ l = k ∨ l ∈ m.map Prod.fst := by
  cases hdg : dget m k with
  | some lst =>
    simp only [addCtxAlways, hdg]
    rw [mem_map_fst_dinsert]
  | none =>
    simp only [addCtxAlways, hdg]
    rw [mem_map_fst_dinsert]

theorem mem_keys_arcsFold (rows : List (String × String × Int × Int))
    (m : List (Int × List String)) (l : Int) :
    (l ∈ ((rows.foldl (fun m2 r => addCtxGuard (addCtxGuard m2 r.2.2.1 r.2.1) r.2.2.2 r.2.1)
        m).map Prod.fst)
      ↔ l ∈ m.map Prod.fst ∨ ∃ r ∈ rows, r.2.2.1 = l ∨ r.2.2.2 = l) := by
  induction rows generalizing m with
  | nil => simp
  | cons r rest ih =>
    rw [List.foldl_cons, ih]
    rw [mem_keys_addCtxGuard, mem_keys_addCtxGuard]
    constructor
    · rintro ((h1 | (h1 | h1)) | ⟨a, ha, hal⟩)
      · exact Or.inr ⟨r, List.mem_cons_self _ _, Or.inr h1.symm⟩
      · exact Or.inr ⟨r, List.mem_cons_self _ _, Or.inl h1.symm⟩
      · exact Or.inl h1
      · exact Or.inr ⟨a, List.mem_cons_of_mem _ ha, hal⟩
    · rintro (h1 | ⟨a, ha, hal⟩)
      · exact Or.inl (Or.inr (Or.inr h1))
      · rcases List.mem_cons.mp ha with rfl | ha2
        · rcases hal with h2 | h2
          · exact Or.inl (Or.inr (Or.inl h2.symm))
          · exact Or.inl (Or.inl h2.symm)
        · exact Or.inr ⟨a, ha2, hal⟩

theorem mem_keys_ctxInnerFold (nums : List Nat) (c : String) (m : List (Int × List String))
    (l : Int) :
    (l ∈ ((nums.foldl (fun m2 n => addCtxAlways m2 (Int.ofNat n) c) m).map Prod.fst)
      ↔ l ∈ m.map Prod.fst ∨ ∃ n ∈ nums, Int.ofNat n = l) := by
  induction nums generalizing m with
  | nil => simp
  | cons n rest ih =>
    rw [List.foldl_cons, ih, mem_keys_addCtxAlways]
    constructor
    · rintro ((h1 | h1) | ⟨a, ha, hal⟩)
      · exact Or.inr ⟨n, List.mem_cons_self _ _, h1.symm⟩
      · exact Or.inl h1
      · exact Or.inr ⟨a, List.mem_cons_of_mem _ ha, hal⟩
    · rintro (h1 | ⟨a, ha, hal⟩)
      · exact Or.inl (Or.inr h1)
      · rcases List.mem_cons.mp ha with rfl | ha2
        · exact Or.inl (Or.inl hal.symm)
        · exact Or.inr ⟨a, ha2, hal⟩

theorem mem_keys_linesFold (rows : List (String × String × Numbits))
    (m : List (Int × List String)) (l : Int) :
    (l ∈ ((rows.foldl (fun m2 r => (numbits_to_nums r.2.2).foldl
          (fun m3 n => addCtxAlways m3 (Int.ofNat n) r.2.1) m2) m).map Prod.fst)
      ↔ l ∈ m.map Prod.fst ∨ ∃ r ∈ rows, ∃ n ∈ numbits_to_nums r.2.2, Int.ofNat n = l) := by
  induction rows generalizing m with
  | nil => simp
  | cons r rest ih =>
    rw [List.foldl_cons, ih, mem_keys_ctxInnerFold]
    constructor
    · rintro ((h1 | h1) | ⟨a, ha, hal⟩)
      · exact Or.inl h1
      · exact Or.inr ⟨r, List.mem_cons_self _ _, h1⟩
      · exact Or.inr ⟨a, List.mem_cons_of_mem _ ha, hal⟩
    · rintro (h1 | ⟨a, ha, hal⟩)
      · exact Or.inl (Or.inl h1)
      · rcases List.mem_cons.mp ha with rfl | ha2
        · exact Or.inl (Or.inr hal)
        · exact Or.inr ⟨a, ha2, hal⟩

/-- C10: for an unmeasured file `contexts_by_lineno` returns the empty
mapping while `lines` and `arcs` return `None`; for a measured file its
keys are exactly the arc endpoints (arcs mode) or decoded lines (lines
mode) possessing at least one context that exists and passes the query
filter. -/
theorem C10_contexts_by_lineno (s : DataState) (f : String) :
    (f ∉ s.file → s.contexts_by_lineno f = [] ∧ s.lines f = none ∧ s.arcs f = none)
    ∧ (f ∈ s.file → s.has_arcs = true → ∀ l : Int,
        (l ∈ (s.contexts_by_lineno f).map Prod.fst ↔
          ∃ r ∈ s.arc, r.1 = f ∧ r.2.1 ∈ s.context ∧ ctxOk s r.2.1 = true
            ∧ (r.2.2.1 = l ∨ r.2.2.2 = l)))
    ∧ (f ∈ s.file → s.has_arcs = false → ∀ l : Int,
        (l ∈ (s.contexts_by_lineno f).map Prod.fst ↔
          ∃ r ∈ s.line_bits, r.1 = f ∧ r.2.1 ∈ s.context ∧ ctxOk s r.2.1 = true
            ∧ ∃ n ∈ numbits_to_nums r.2.2, Int.ofNat n = l)) := by
  refine ⟨?_, ?_, ?_⟩
  · intro hf
    refine ⟨?_, ?_, ?_⟩
    · unfold DataState.contexts_by_lineno
      rw [if_pos hf]
    · cases hA : s.has_arcs <;>
        simp [DataState.lines, DataState.arcs, DataState.linesFromBits, hf, hA]
    · simp [DataState.arcs, hf]
  · intro hf hA l
    unfold DataState.contexts_by_lineno
    rw [if_neg (not_not.mpr hf), if_pos hA, mem_keys_arcsFold]
    simp only [List.map_nil, List.not_mem_nil, false_or, List.mem_filter,
      decide_eq_true_eq]
    constructor
    · rintro ⟨r, ⟨hr, h1, h2, h3⟩, h4⟩
      exact ⟨r, hr, h1, h2, h3, h4⟩
    · rintro ⟨r, hr, h1, h2, h3, h4⟩
      exact ⟨r, ⟨hr, h1, h2, h3⟩, h4⟩
  · intro hf hA l
    unfold DataState.contexts_by_lineno
    rw [if_neg (not_not.mpr hf), if_neg (by rw [hA]; exact Bool.false_ne_true),
      mem_keys_linesFold]
    simp only [List.map_nil, List.not_mem_nil, false_or, List.mem_filter,
      decide_eq_true_eq]
    constructor
    · rintro ⟨r, ⟨hr, h1, h2, h3⟩, h4⟩
      exact ⟨r, hr, h1, h2, h3, h4⟩
    · rintro ⟨r, hr, h1, h2, h3, h4⟩
      exact ⟨r, ⟨hr, h1, h2, h3⟩, h4⟩

/-! ## Lemmas: the tracer-conflict loop of `update` -/

theorem dget_eq_find? {α β : Type} [DecidableEq α] (l : List (α × β)) (k : α) :
    dget l k = match l.find? (fun e => decide (e.1 = k)) with
      | some e => some e.2
      | none => none := by
  induction l with
  | nil => simp [dget, List.find?]
  | cons e rest ih =>
    obtain ⟨k0, v0⟩ := e
    by_cases h : k0 = k
    · rw [List.find?_cons_of_pos _ (by simpa using h)]
      simp [dget, h]
    · rw [List.find?_cons_of_neg _ (by simpa using h)]
      simpa [dget, h] using ih

theorem tracerMapLoop_error_iff (tt tr : List (String × String)) (l : List String)
    (tm : List (String × String)) :
    (∃ e, tracerMapLoop tt tr l tm = .error e) ↔
      ∃ p ∈ l, dget tt p ≠ none ∧ dget tt p ≠ some ((dget tr p).getD "") := by
  induction l generalizing tm with
  | nil => simp [tracerMapLoop]
  | cons path rest ih =>
    by_cases hc : dget tt path ≠ none ∧ dget tt path ≠ some ((dget tr path).getD "")
    · simp only [tracerMapLoop, if_pos hc]
      constructor
      · intro
        exact ⟨path, List.mem_cons_self _ _, hc⟩
      · intro
        exact ⟨_, rfl⟩
    · simp only [tracerMapLoop, if_neg hc, ih]
      constructor
      · rintro ⟨p, hp, hcp⟩
        exact ⟨p, List.mem_cons_of_mem _ hp, hcp⟩
      · rintro ⟨p, hp, hcp⟩
        rcases List.mem_cons.mp hp with rfl | hp2
        · exact absurd hcp hc
        · exact ⟨p, hp2, hcp⟩

theorem tracerMapLoop_ok (tt tr : List (String × String)) (l : List String)
    (tm : List (String × String))
    (h : ¬∃ p ∈ l, dget tt p ≠ none ∧ dget tt p ≠ some ((dget tr p).getD "")) :
    ∃ tm2, tracerMapLoop tt tr l tm = .ok tm2 := by
  cases hres : tracerMapLoop tt tr l tm with
  | ok tm2 => exact ⟨tm2, rfl⟩
  | error e =>
    exact absurd ((tracerMapLoop_error_iff tt tr l tm).mp ⟨e, hres⟩) h

/-! ## Lemmas: the dictionaries `update` builds, under the default
(identity) `PathAliases` -/

theorem dget_filesDict (o : DataState) (q : String) :
    dget (dictOf (fun p => p) aliasId ([] : List (String × String)) o.file) q
      = if q ∈ o.file then some q else none := by
  rw [dget_dictOf_fixed o.file (fun p => p) aliasId [] q q (fun r _ hrq => hrq)]
  by_cases hq : q ∈ o.file
  · rw [if_pos ⟨q, hq, rfl⟩, if_pos hq]
  · rw [if_neg ?hne, if_neg hq]
    case hne =>
      rintro ⟨r, hr, rfl⟩
      exact hq hr
    rfl

theorem nodup_filesDict (o : DataState) :
    ((dictOf (fun p => p) aliasId ([] : List (String × String)) o.file).map Prod.fst).Nodup :=
  nodup_dkeys_dictOf _ _ _ _ (by simp)

theorem mem_filesVals (o : DataState) (q : String) :
    (q ∈ (dictOf (fun p => p) aliasId ([] : List (String × String)) o.file).map Prod.snd
      ↔ q ∈ o.file) := by
  constructor
  · intro hq
    rcases List.mem_map.mp hq with ⟨e, he, rfl⟩
    rcases mem_dictOf _ _ _ _ _ he with h1 | ⟨r, hr, rfl⟩
    · exact absurd h1 (List.not_mem_nil e)
    · exact hr
  · intro hq
    have hmem : (q, q) ∈ dictOf (fun p => p) aliasId ([] : List (String × String)) o.file := by
      rw [mem_iff_dget_nodup _ (nodup_filesDict o) q q, dget_filesDict, if_pos hq]
    exact List.mem_map.mpr ⟨(q, q), hmem, rfl⟩

theorem dget_baseDict (s : DataState) (q : String) :
    dget (dictOf (fun p => p) (fun _ => "") ([] : List (String × String)) s.file) q
      = if q ∈ s.file then some "" else none := by
  rw [dget_dictOf_fixed s.file (fun p => p) (fun _ => "") [] q "" (fun r _ _ => rfl)]
  by_cases hq : q ∈ s.file
  · rw [if_pos ⟨q, hq, rfl⟩, if_pos hq]
  · rw [if_neg ?hne, if_neg hq]
    case hne =>
      rintro ⟨r, hr, rfl⟩
      exact hq hr
    rfl

theorem dget_thisTracers (s : DataState) (hnd : (s.tracer.map Prod.fst).Nodup) (q : String) :
    dget (dictOf (fun r => aliasId r.1) (fun r => r.2)
        (dictOf (fun p => p) (fun _ => "") ([] : List (String × String)) s.file) s.tracer) q
      = thisTracerOf s q := by
  have hnd2 : (s.tracer.map (fun r : String × String => aliasId r.1)).Nodup := hnd
  rw [dget_dictOf_nodup s.tracer (fun r => aliasId r.1) (fun r => r.2) _ q hnd2]
  rw [find?_congr_pred s.tracer (fun r => decide (aliasId r.1 = q))
    (fun r => decide (r.1 = q)) (fun a _ => rfl)]
  cases hf : s.tracer.find? (fun r => decide (r.1 = q)) with
  | some r =>
    have hsr : dget s.tracer q = some r.2 := by rw [dget_eq_find?, hf]
    show some r.2 = thisTracerOf s q
    unfold thisTracerOf
    rw [hsr]
  | none =>
    have hsr : dget s.tracer q = none := by rw [dget_eq_find?, hf]
    show dget (dictOf (fun p => p) (fun _ => "") ([] : List (String × String)) s.file) q
      = thisTracerOf s q
    unfold thisTracerOf
    rw [hsr, dget_baseDict]

theorem dget_tracersDict (o : DataState) (hnd : (o.tracer.map Prod.fst).Nodup)
    (hfile : ∀ r ∈ o.tracer, r.1 ∈ o.file) (q : String) :
    dget (dictOf
        (fun r => (dget (dictOf (fun p => p) aliasId ([] : List (String × String)) o.file)
          r.1).getD "")
        (fun r => r.2) ([] : List (String × String)) o.tracer) q
      = dget o.tracer q := by
  rw [dget_dictOf_nodup o.tracer _ _ _ q ?nd]
  case nd =>
    have hmap : o.tracer.map
        (fun r => (dget (dictOf (fun p => p) aliasId ([] : List (String × String)) o.file)
          r.1).getD "")
        = o.tracer.map Prod.fst := by
      apply List.map_congr_left
      intro r hr
      rw [dget_filesDict, if_pos (hfile r hr)]
      rfl
    rw [hmap]
    exact hnd
  rw [find?_congr_pred o.tracer _ (fun r => decide (r.1 = q)) ?pw]
  case pw =>
    intro a ha
    rw [dget_filesDict, if_pos (hfile a ha)]
    rfl
  cases hf : o.tracer.find? (fun r => decide (r.1 = q)) with
  | some r =>
    show some r.2 = dget o.tracer q
    rw [dget_eq_find?, hf]
  | none =>
    have hsr : dget o.tracer q = none := by rw [dget_eq_find?, hf]
    show (dget ([] : List (String × String)) q) = dget o.tracer q
    rw [hsr]
    rfl

theorem dget_linesDict (o : DataState) (hnd : (o.line_bits.map (fun r => (r.1, r.2.1))).Nodup)
    (hfile : ∀ r ∈ o.line_bits, r.1 ∈ o.file) (k1 k2 : String) :
    dget (dictOf
        (fun r => ((dget (dictOf (fun p => p) aliasId ([] : List (String × String)) o.file)
          r.1).getD "", r.2.1))
        (fun r => r.2.2) ([] : List ((String × String) × Numbits)) o.line_bits) (k1, k2)
      = lbGet o.line_bits k1 k2 := by
  rw [dget_dictOf_nodup o.line_bits _ _ _ (k1, k2) ?nd]
  case nd =>
    have hmap : o.line_bits.map
        (fun r => ((dget (dictOf (fun p => p) aliasId ([] : List (String × String)) o.file)
          r.1).getD "", r.2.1))
        = o.line_bits.map (fun r => (r.1, r.2.1)) := by
      apply List.map_congr_left
      intro r hr
      rw [dget_filesDict, if_pos (hfile r hr)]
      rfl
    rw [hmap]
    exact hnd
  rw [find?_congr_pred o.line_bits _ (fun r => decide ((r.1, r.2.1) = (k1, k2))) ?pw]
  case pw =>
    intro a ha
    rw [dget_filesDict, if_pos (hfile a ha)]
    rfl
  cases hf : o.line_bits.find? (fun r => decide ((r.1, r.2.1) = (k1, k2))) with
  | some r =>
    show some r.2.2 = lbGet o.line_bits k1 k2
    rw [lbGet_eq_find?, hf]
  | none =>
    have hsr : lbGet o.line_bits k1 k2 = none := by rw [lbGet_eq_find?, hf]
    show (dget ([] : List ((String × String) × Numbits)) (k1, k2)) = lbGet o.line_bits k1 k2
    rw [hsr]
    rfl

theorem dget_mergedLines (s : DataState)
    (hnd : (s.line_bits.map (fun r => (r.1, r.2.1))).Nodup)
    (d : List ((String × String) × Numbits)) (k1 k2 : String) :
    dget (mergeLinesDict aliasId s.line_bits d) (k1, k2) =
      match lbGet s.line_bits k1 k2, dget d (k1, k2) with
      | some nbs, some nbd => some (numbits_union nbd nbs)
      | some nbs, none => some nbs
      | none, od => od := by
  have hnd2 : (s.line_bits.map (fun r => (aliasId r.1, r.2.1))).Nodup := hnd
  rw [dget_mergeLinesDict aliasId s.line_bits d (k1, k2) hnd2]
  rw [find?_congr_pred s.line_bits (fun r => decide ((aliasId r.1, r.2.1) = (k1, k2)))
    (fun r => decide ((r.1, r.2.1) = (k1, k2))) (fun a _ => rfl)]
  cases hf : s.line_bits.find? (fun r => decide ((r.1, r.2.1) = (k1, k2))) with
  | some r =>
    have hl : lbGet s.line_bits k1 k2 = some r.2.2 := by
      rw [lbGet_eq_find?, hf]
    rw [hl]
    cases hd : dget d (k1, k2) <;> rfl
  | none =>
    have hl : lbGet s.line_bits k1 k2 = none := by
      rw [lbGet_eq_find?, hf]
    rw [hl]

theorem updateConflictLoop (s o : DataState) (hs_tk : (s.tracer.map Prod.fst).Nodup)
    (ho_tk : (o.tracer.map Prod.fst).Nodup) (ho_tf : ∀ r ∈ o.tracer, r.1 ∈ o.file) :
    ((∃ e, tracerMapLoop
        (dictOf (fun r => aliasId r.1) (fun r => r.2)
          (dictOf (fun p => p) (fun _ => "") ([] : List (String × String)) s.file) s.tracer)
        (dictOf (fun r => (dget (dictOf (fun p => p) aliasId ([] : List (String × String))
            o.file) r.1).getD "") (fun r => r.2) ([] : List (String × String)) o.tracer)
        ((dictOf (fun p => p) aliasId ([] : List (String × String)) o.file).map Prod.snd)
        [] = .error e)
      ↔ ∃ p ∈ o.file, tracerConflict s o p) := by
  rw [tracerMapLoop_error_iff]
  constructor
  · rintro ⟨p, hp, hc⟩
    refine ⟨p, (mem_filesVals o p).mp hp, ?_⟩
    rw [dget_thisTracers s hs_tk p, dget_tracersDict o ho_tk ho_tf p] at hc
    exact hc
  · rintro ⟨p, hp, hc⟩
    refine ⟨p, (mem_filesVals o p).mpr hp, ?_⟩
    rw [dget_thisTracers s hs_tk p, dget_tracersDict o ho_tk ho_tf p]
    exact hc

theorem update_error_iff (s o : DataState) (hs : WFd s) (ho : WFd o)
    (h1 : ¬(s.has_lines = true ∧ o.has_arcs = true))
    (h2 : ¬(s.has_arcs = true ∧ o.has_lines = true)) :
    ((∃ e, s.update o aliasId = .error e) ↔ ∃ p ∈ o.file, tracerConflict s o p) := by
  unfold WFd at hs ho
  obtain ⟨hs_lb, hs_lbf, hs_lbc, hs_tk, hs_tf, hs_lm, hs_am, hs_me⟩ := hs
  obtain ⟨ho_lb, ho_lbf, ho_lbc, ho_tk, ho_tf, ho_lm, ho_am, ho_me⟩ := ho
  have hb1 : (s.has_lines && o.has_arcs) = false := by
    cases hA : s.has_lines with
    | false => rfl
    | true =>
      cases hB : o.has_arcs with
      | false => rfl
      | true => exact absurd ⟨hA, hB⟩ h1
  have hb2 : (s.has_arcs && o.has_lines) = false := by
    cases hA : s.has_arcs with
    | false => rfl
    | true =>
      cases hB : o.has_lines with
      | false => rfl
      | true => exact absurd ⟨hA, hB⟩ h2
  have hloopiff := updateConflictLoop s o hs_tk ho_tk ho_tf
  simp only [DataState.update, hb1, hb2, Bool.false_eq_true, if_false, pure_bind]
  cases hres : tracerMapLoop
      (dictOf (fun r => aliasId r.1) (fun r => r.2)
        (dictOf (fun p => p) (fun _ => "") ([] : List (String × String)) s.file) s.tracer)
      (dictOf (fun r => (dget (dictOf (fun p => p) aliasId ([] : List (String × String))
          o.file) r.1).getD "") (fun r => r.2) ([] : List (String × String)) o.tracer)
      ((dictOf (fun p => p) aliasId ([] : List (String × String)) o.file).map Prod.snd)
      [] with
  | error e =>
    exact iff_of_true ⟨e, rfl⟩ (hloopiff.mp ⟨e, hres⟩)
  | ok tm =>
    have hrhs : ¬∃ p ∈ o.file, tracerConflict s o p := by
      intro hc
      obtain ⟨e, he⟩ := hloopiff.mpr hc
      rw [hres] at he
      exact Except.noConfusion he
    refine iff_of_false ?_ hrhs
    rintro ⟨e, he⟩
    simp only [Bind.bind, Except.bind] at he
    by_cases hoarc : o.arc = []
    · simp only [hoarc, List.map_nil, ne_eq, not_true_eq_false, if_false] at he
      by_cases hmg : mergeLinesDict aliasId s.line_bits
          (dictOf (fun r => ((dget (dictOf (fun p => p) aliasId
              ([] : List (String × String)) o.file) r.1).getD "", r.2.1))
            (fun r => r.2.2) ([] : List ((String × String) × Numbits)) o.line_bits) = []
      · simp only [hmg, ne_eq, not_true_eq_false, if_false, pure_bind] at he
        exact Except.noConfusion he
      · rw [if_pos hmg] at he
        rw [choose_lines_eq] at he
        have hsa : s.has_arcs = false := by
          by_cases hslb : s.line_bits = []
          · by_cases holb : o.line_bits = []
            · exfalso
              apply hmg
              rw [hslb, holb]
              rfl
            · have hol := ho_lm holb
              cases hq : s.has_arcs with
              | false => rfl
              | true => exact absurd ⟨hq, hol⟩ h2
          · have hsl := hs_lm hslb
            cases hq : s.has_arcs with
            | false => rfl
            | true => exact absurd ⟨hsl, hq⟩ hs_me
      
        simp only [hsa, Bool.false_eq_true, if_false, Bind.bind, Except.bind, pure_bind] at he
        exact Except.noConfusion he
    · have hoA : o.has_arcs = true := ho_am hoarc
      have hsl : s.has_lines = false := by
        cases hq : s.has_lines with
        | false => rfl
        | true => exact absurd ⟨hq, hoA⟩ h1
      have holb : o.line_bits = [] := by
        by_contra hne
        exact ho_me ⟨ho_lm hne, hoA⟩
      have hslb : s.line_bits = [] := by
        by_contra hne
        rw [hs_lm hne] at hsl
        exact Bool.noConfusion hsl
      have harcs : (o.arc.map (fun r => ((dget (dictOf (fun p => p) aliasId
          ([] : List (String × String)) o.file) r.1).getD "", r.2.1, r.2.2.1, r.2.2.2))) ≠ [] := by
        simpa [List.map_eq_nil_iff] using hoarc
      rw [if_pos harcs] at he
      rw [choose_arcs_eq] at he
      have hmg : mergeLinesDict aliasId s.line_bits
          (dictOf (fun r => ((dget (dictOf (fun p => p) aliasId
              ([] : List (String × String)) o.file) r.1).getD "", r.2.1))
            (fun r => r.2.2) ([] : List ((String × String) × Numbits)) o.line_bits) = [] := by
        rw [hslb, holb]
        rfl
      simp only [hsl, Bool.false_eq_true, if_false, Bind.bind, Except.bind, pure_bind,
        hmg, ne_eq, not_true_eq_false] at he
      exact Except.noConfusion he

/-- C6 counterexample: store A measured file "f" with no tracer, store B
measured "f" with tracer "p"; the claim says this merges without error,
but `update` raises the tracer conflict (`'' vs 'p'`). -/
theorem C6_counterexample :
    (do
      let a ← initState.add_lines [("f", [1])]
      let b0 ← initState.add_lines [("f", [2])]
      let b ← b0.add_file_tracers [("f", "p")]
      a.update b aliasId) = Except.error (conflictMsg "f" "" "p") := by
  rfl

/-- C6 amended: during `update(other)` (with the default identity path
aliases) a tracer-conflict `DataError` is raised iff some file of `other`
exists in this store and this store's tracer string for it (`''` when
measured without a tracer) differs from `other`'s tracer string (`''`
when absent); in particular a file measured locally without any tracer
conflicts with an incoming non-empty tracer. -/
theorem C6_tracer_conflict (s o : DataState) (hs : WFd s) (ho : WFd o)
    (h1 : ¬(s.has_lines = true ∧ o.has_arcs = true))
    (h2 : ¬(s.has_arcs = true ∧ o.has_lines = true)) :
    ((∃ e, s.update o aliasId = .error e) ↔ ∃ p ∈ o.file, tracerConflict s o p)
    ∧ (∀ p, p ∈ s.file → p ∈ o.file → dget s.tracer p = none → otherTracerOf o p ≠ "" →
        ∃ e, s.update o aliasId = .error e) := by
  have hiff := update_error_iff s o hs ho h1 h2
  refine ⟨hiff, ?_⟩
  intro p hps hpo hnone hot
  apply hiff.mpr
  refine ⟨p, hpo, ?_, ?_⟩
  · unfold thisTracerOf
    rw [hnone, if_pos hps]
    simp
  · unfold thisTracerOf
    rw [hnone, if_pos hps]
    intro hcontra
    exact hot (Option.some.inj hcontra).symm

/-- C6 witness: the amended characterization applied to two concrete
lines-mode stores, the local one measuring "f" without a tracer and the
other carrying tracer "p" for it — `update` raises. -/
theorem C6_witness :
    ∃ e, (⟨true, false, ["f"], [""], [("f", "", [2])], [], [], none, none⟩ :
        DataState).update
      (⟨true, false, ["f"], [""], [("f", "", [4])], [], [("f", "p")], none, none⟩ :
        DataState) aliasId = .error e :=
  (C6_tracer_conflict
    ⟨true, false, ["f"], [""], [("f", "", [2])], [], [], none, none⟩
    ⟨true, false, ["f"], [""], [("f", "", [4])], [], [("f", "p")], none, none⟩
    (by decide) (by decide) (by decide) (by decide)).2 "f"
    (by decide) (by decide) (by decide) (by decide)

/-! ## Lemmas: towards the merge-union theorem -/

theorem mem_foldl_append {α β : Type} (l : List α) (g : α → List β) (init : List β) (x : β) :
    (x ∈ l.foldl (fun acc r => acc ++ g r) init ↔ x ∈ init ∨ ∃ r ∈ l, x ∈ g r) := by
  induction l generalizing init with
  | nil => simp
  | cons r rest ih =>
    rw [List.foldl_cons, ih]
    simp only [List.mem_append, List.mem_cons]
    constructor
    · rintro ((h1 | h1) | ⟨a, ha, hx⟩)
      · exact Or.inl h1
      · exact Or.inr ⟨r, Or.inl rfl, h1⟩
      · exact Or.inr ⟨a, Or.inr ha, hx⟩
    · rintro (h1 | ⟨a, (rfl | ha), hx⟩)
      · exact Or.inl (Or.inl h1)
      · exact Or.inl (Or.inr hx)
      · exact Or.inr ⟨a, ha, hx⟩

theorem lbGet_of_mem (rows : List (String × String × Numbits))
    (hnd : (rows.map (fun r => (r.1, r.2.1))).Nodup) (r : String × String × Numbits)
    (hr : r ∈ rows) : lbGet rows r.1 r.2.1 = some r.2.2 := by
  unfold lbGet
  rw [← mem_iff_dget_nodup _ ?nd (r.1, r.2.1) r.2.2]
  · exact List.mem_map.mpr ⟨r, hr, rfl⟩
  case nd =>
    rw [List.map_map]
    exact hnd

/-- C1: for two lines-mode stores, after a successful `A.update(B)` (with
the default identity path aliases) the recorded line set of every
`(file, context)` pair is the union of the two stores' previously
recorded sets, and `lines(f)` queried under query-context `c` returns
exactly that union for any measured file. -/
theorem C1_merge_union (A B A2 : DataState) (f c : String)
    (hA : WFd A) (hB : WFd B) (hAa : A.has_arcs = false) (hBa : B.has_arcs = false)
    (hupd : A.update B aliasId = .ok A2) :
    (∀ x, recordedLines A2 f c x = (recordedLines A f c x || recordedLines B f c x))
    ∧ ((f ∈ A.file ∨ f ∈ B.file) →
        ∃ l, (A2.set_query_context c).lines f = some l ∧
          ∀ x, (x ∈ l ↔ (recordedLines A f c x = true ∨ recordedLines B f c x = true))) := by
  obtain ⟨hs_lb, hs_lbf, hs_lbc, hs_tk, hs_tf, hs_lm, hs_am, hs_me⟩ := hA
  obtain ⟨ho_lb, ho_lbf, ho_lbc, ho_tk, ho_tf, ho_lm, ho_am, ho_me⟩ := hB
  have hb1 : (A.has_lines && B.has_arcs) = false := by rw [hBa, Bool.and_false]
  have hb2 : (A.has_arcs && B.has_lines) = false := by rw [hAa, Bool.false_and]
  have hBarc : B.arc = [] := by
    by_contra hne
    rw [ho_am hne] at hBa
    exact Bool.noConfusion hBa
  have hdict : ∀ k1 k2 : String, dget (mergeLinesDict aliasId A.line_bits
      (dictOf (fun r => ((dget (dictOf (fun p => p) aliasId
          ([] : List (String × String)) B.file) r.1).getD "", r.2.1))
        (fun r => r.2.2) ([] : List ((String × String) × Numbits)) B.line_bits)) (k1, k2) =
      match lbGet A.line_bits k1 k2, lbGet B.line_bits k1 k2 with
      | some nbs, some nbd => some (numbits_union nbd nbs)
      | some nbs, none => some nbs
      | none, ob => ob := by
    intro k1 k2
    rw [dget_mergedLines A hs_lb _ k1 k2, dget_linesDict B ho_lb ho_lbf k1 k2]
  have hkey : ∀ x : Nat, (match dget (mergeLinesDict aliasId A.line_bits
      (dictOf (fun r => ((dget (dictOf (fun p => p) aliasId
          ([] : List (String × String)) B.file) r.1).getD "", r.2.1))
        (fun r => r.2.2) ([] : List ((String × String) × Numbits)) B.line_bits)) (f, c) with
      | some nb => numbitsHas nb x
      | none => false) = (recordedLines A f c x || recordedLines B f c x) := by
    intro x
    rw [hdict f c]
    simp only [recordedLines]
    cases lbGet A.line_bits f c with
    | some a =>
      cases lbGet B.line_bits f c with
      | some b =>
        show numbitsHas (numbits_union b a) x = (numbitsHas a x || numbitsHas b x)
        rw [numbitsHas_union, Bool.or_comm]
      | none =>
        show numbitsHas a x = (numbitsHas a x || false)
        rw [Bool.or_false]
    | none =>
      cases lbGet B.line_bits f c with
      | some b =>
        show numbitsHas b x = (false || numbitsHas b x)
        rw [Bool.false_or]
      | none => rfl
  have hMnd : ((mergeLinesDict aliasId A.line_bits
      (dictOf (fun r => ((dget (dictOf (fun p => p) aliasId
          ([] : List (String × String)) B.file) r.1).getD "", r.2.1))
        (fun r => r.2.2) ([] : List ((String × String) × Numbits)) B.line_bits)).map
      Prod.fst).Nodup :=
    nodup_dkeys_mergeLinesDict aliasId A.line_bits _ (nodup_dkeys_dictOf _ _ _ _ (by simp))
  simp only [DataState.update, hb1, hb2, Bool.false_eq_true, if_false, pure_bind] at hupd
  cases hres : tracerMapLoop
      (dictOf (fun r => aliasId r.1) (fun r => r.2)
        (dictOf (fun p => p) (fun _ => "") ([] : List (String × String)) A.file) A.tracer)
      (dictOf (fun r => (dget (dictOf (fun p => p) aliasId ([] : List (String × String))
          B.file) r.1).getD "") (fun r => r.2) ([] : List (String × String)) B.tracer)
      ((dictOf (fun p => p) aliasId ([] : List (String × String)) B.file).map Prod.snd)
      [] with
  | error e =>
    rw [hres] at hupd
    simp only [Bind.bind, Except.bind] at hupd
    exact Except.noConfusion hupd
  | ok tm =>
    rw [hres] at hupd
    simp only [Bind.bind, Except.bind] at hupd
    rw [hBarc] at hupd
    simp only [List.map_nil, ne_eq, not_true_eq_false, if_false] at hupd
    by_cases hmg : mergeLinesDict aliasId A.line_bits
        (dictOf (fun r => ((dget (dictOf (fun p => p) aliasId
            ([] : List (String × String)) B.file) r.1).getD "", r.2.1))
          (fun r => r.2.2) ([] : List ((String × String) × Numbits)) B.line_bits) = []
    · simp only [hmg, ne_eq, not_true_eq_false, if_false, pure, Except.pure, Except.bind]
        at hupd
      have hA2 := Except.ok.inj hupd
      subst hA2
      have hAlb : A.line_bits = [] := by
        cases hcase : A.line_bits with
        | nil => rfl
        | cons r rest =>
          exfalso
          have hg : lbGet A.line_bits r.1 r.2.1 = some r.2.2 :=
            lbGet_of_mem A.line_bits hs_lb r (by rw [hcase]; exact List.mem_cons_self _ _)
          have hd := hdict r.1 r.2.1
          rw [hg, hmg] at hd
          revert hd
          cases lbGet B.line_bits r.1 r.2.1 <;> intro hd <;> exact Option.noConfusion hd
      have hBlb : B.line_bits = [] := by
        cases hcase : B.line_bits with
        | nil => rfl
        | cons r rest =>
          exfalso
          have hg : lbGet B.line_bits r.1 r.2.1 = some r.2.2 :=
            lbGet_of_mem B.line_bits ho_lb r (by rw [hcase]; exact List.mem_cons_self _ _)
          have hd := hdict r.1 r.2.1
          rw [hg, hmg] at hd
          revert hd
          cases lbGet A.line_bits r.1 r.2.1 <;> intro hd <;> exact Option.noConfusion hd
      have hrA : ∀ x : Nat, recordedLines A f c x = false := by
        intro x
        simp [recordedLines, hAlb, lbGet, dget]
      have hrB : ∀ x : Nat, recordedLines B f c x = false := by
        intro x
        simp [recordedLines, hBlb, lbGet, dget]
      constructor
      · intro x
        rw [hrA x, hrB x]
        simp [recordedLines, hAlb, lbGet, dget]
      · intro hf
        have hfile : f ∈ List.foldl insertNew A.file
            ((dictOf (fun p => p) aliasId ([] : List (String × String)) B.file).map
              Prod.snd) := by
          rw [mem_foldl_insertNew]
          rcases hf with h | h
          · exact Or.inl h
          · exact Or.inr ((mem_filesVals B f).mpr h)
        refine ⟨[], ?_, ?_⟩
        · simp only [DataState.set_query_context, DataState.lines, DataState.linesFromBits,
            hAa, Bool.false_eq_true, if_false]
          rw [if_pos hfile, hAlb]
          rfl
        · intro x
          rw [hrA x, hrB x]
          simp
    · rw [if_pos hmg] at hupd
      rw [choose_lines_eq] at hupd
      simp only [hAa, Bool.false_eq_true, if_false, Bind.bind, Except.bind, pure,
        Except.pure, pure_bind] at hupd
      have hA2 := Except.ok.inj hupd
      subst hA2
      constructor
      · intro x
        simp only [recordedLines]
        rw [lbGet_map_flatten]
        exact hkey x
      · intro hf
        have hfile : f ∈ List.foldl insertNew A.file
            ((dictOf (fun p => p) aliasId ([] : List (String × String)) B.file).map
              Prod.snd) := by
          rw [mem_foldl_insertNew]
          rcases hf with h | h
          · exact Or.inl h
          · exact Or.inr ((mem_filesVals B f).mpr h)
        simp only [DataState.set_query_context, DataState.lines, DataState.linesFromBits,
          Bool.false_eq_true, if_false]
        rw [if_pos hfile]
        refine ⟨_, rfl, ?_⟩
        intro x
        rw [List.mem_dedup, mem_foldl_append]
        simp only [List.not_mem_nil, false_or, List.mem_filter, decide_eq_true_eq,
          List.mem_map, ctxOk, mem_foldl_insertNew]
        constructor
        · rintro ⟨r, ⟨⟨⟨⟨k1, k2⟩, v⟩, hkv, rfl⟩, hrf, hcmem, hrc⟩, hx⟩
          obtain rfl : f = k1 := hrf.symm
          obtain rfl : c = k2 := hrc.symm
          have hdg := (mem_iff_dget_nodup _ hMnd (f, c) v).mp hkv
          have h1 := hkey x
          rw [hdg] at h1
          have h2 : numbitsHas v x = (recordedLines A f c x || recordedLines B f c x) := h1
          have hvx : numbitsHas v x = true := (mem_numbits_to_nums v x).mp hx
          rw [hvx] at h2
          exact (Bool.or_eq_true _ _).mp h2.symm
        · intro hor
          have h1 : (recordedLines A f c x || recordedLines B f c x) = true := by
            rcases hor with h | h
            · rw [h, Bool.true_or]
            · rw [h, Bool.or_true]
          have h2 := hkey x
          rw [h1] at h2
          cases hdg : dget (mergeLinesDict aliasId A.line_bits
              (dictOf (fun r => ((dget (dictOf (fun p => p) aliasId
                  ([] : List (String × String)) B.file) r.1).getD "", r.2.1))
                (fun r => r.2.2) ([] : List ((String × String) × Numbits)) B.line_bits))
              (f, c) with
          | none =>
            rw [hdg] at h2
            exact Bool.noConfusion h2
          | some nb =>
            rw [hdg] at h2
            have hvx : numbitsHas nb x = true := h2
            have hrow := (mem_iff_dget_nodup _ hMnd (f, c) nb).mpr hdg
            have hctx : c ∈ A.context ∨ c ∈ B.context := by
              rcases mem_mergeLinesDict aliasId A.line_bits _ _ hrow with h3 | ⟨r, hr, hk⟩
              · rcases List.mem_map.mp h3 with ⟨e, he, hek⟩
                rcases mem_dictOf _ _ _ _ _ he with h4 | ⟨r, hr, hre⟩
                · exact absurd h4 (List.not_mem_nil e)
                · right
                  have hc2 : r.2.1 = c := by
                    rw [hre] at hek
                    exact congrArg Prod.snd hek
                  rw [← hc2]
                  exact ho_lbc r hr
              · left
                have hc2 : c = r.2.1 := congrArg Prod.snd hk
                rw [hc2]
                exact hs_lbc r hr
            exact ⟨(f, c, nb), ⟨⟨((f, c), nb), hrow, rfl⟩, rfl, hctx, rfl⟩,
              (mem_numbits_to_nums nb x).mpr hvx⟩

/-- C1 witness: the merge-union theorem applied to two concrete one-file
lines-mode stores (lines {1,2} and {2,3} of "f"; the merged store holds
numbits 14 = {1,2,3}), read at line 2. -/
theorem C1_witness :
    recordedLines
        (⟨true, false, ["f"], [""], [("f", "", [14])], [], [("f", "")], none, none⟩ :
          DataState) "f" "" 2 =
      (recordedLines
          (⟨true, false, ["f"], [""], [("f", "", [6])], [], [], none, none⟩ : DataState)
          "f" "" 2 ||
        recordedLines
          (⟨true, false, ["f"], [""], [("f", "", [12])], [], [], none, none⟩ : DataState)
          "f" "" 2) :=
  (C1_merge_union
    ⟨true, false, ["f"], [""], [("f", "", [6])], [], [], none, none⟩
    ⟨true, false, ["f"], [""], [("f", "", [12])], [], [], none, none⟩
    ⟨true, false, ["f"], [""], [("f", "", [14])], [], [("f", "")], none, none⟩
    "f" "" (by decide) (by decide) rfl rfl rfl).1 2
